import Mathlib

/-!
Shallow embedding of the OnexTID client-side job data-access layer
(src/unnamed/part_000: cache, retry, fetchAllJobs, fetchJobById,
fetchJobsByIds; src/unnamed/part_011: validateJobData, postJob).
JavaScript machine state (the module-level Map cache, Date.now, the
Firestore client) is made explicit: the cache is an insertion-ordered
association list, the clock is a natural-number millisecond parameter,
and the remote store is an oracle passed to each service function.
-/

namespace OnexTID

/-! ### JavaScript primitives -/

/-- Whether the first character list is an initial segment of the
second. -/
def leadsWith : List Char → List Char → Bool
  | [], _ => true
  | _ :: _, [] => false
  | a :: as, b :: bs => a == b && leadsWith as bs

/-- Whether the first character list occurs contiguously inside the
second. -/
def occursIn : List Char → List Char → Bool
  | n, [] => n == ([] : List Char)
  | n, c :: rest => leadsWith n (c :: rest) || occursIn n rest

/-- Model of the JavaScript method String.includes: true iff the second
string occurs as a contiguous substring of the first. -/
def jsIncludes (s sub : String) : Bool :=
  occursIn sub.toList s.toList

/-- Characters stripped by String.trim. -/
def trimChars (cs : List Char) : List Char :=
  ((cs.dropWhile Char.isWhitespace).reverse.dropWhile Char.isWhitespace).reverse

/-- Model of the JavaScript method String.trim (whitespace at both
ends). -/
def jsTrim (s : String) : String :=
  ⟨trimChars s.toList⟩

/-- Splitting a character list at every occurrence of a separator
character (the shape of String.split used on "." and "-" below). -/
def splitChar (c : Char) : List Char → List (List Char)
  | [] => [[]]
  | x :: xs =>
    if x == c then [] :: splitChar c xs
    else
      match splitChar c xs with
      | h :: t => (x :: h) :: t
      | [] => [[x]]

/-- Model of a JavaScript value as it appears in this codebase: undefined,
null, a string, or a number (with none standing for NaN, rationals
standing for the finite doubles that actually occur here). -/
inductive JSVal where
  | undefined : JSVal
  | nullv : JSVal
  | str (s : String) : JSVal
  | num (q : Option ℚ) : JSVal
deriving DecidableEq, Repr

/-- JavaScript truthiness for the modelled values: undefined, null, the
empty string, NaN and 0 are falsy. -/
def jsTruthy : JSVal → Bool
  | .undefined => false
  | .nullv => false
  | .str s => s != ""
  | .num none => false
  | .num (some q) => q != 0

/-- Whether typeof v === "string". -/
def JSVal.isStr : JSVal → Bool
  | .str _ => true
  | _ => false

/-! ### Errors and the retry policy (withRetry, part_000 lines 399-416) -/

/-- A thrown JavaScript error as observed by the retry classifier: its
code and message properties, each possibly not a string (none). -/
structure JsError where
  code : Option String
  message : Option String
deriving DecidableEq, Repr

/-- The TypeError raised by the host when error.message.includes is
evaluated on a non-string message (modelled with the V8 wording). -/
def jsTypeError : JsError :=
  { code := none
  , message := some "Cannot read properties of undefined reading includes" }

/-- The classification expression of withRetry:
error.code === "unavailable" || error.code === "deadline-exceeded" ||
error.message.includes("network"). The short-circuit order is kept; when
both code tests fail and message is not a string, evaluating includes
itself throws a TypeError, modelled as the .error branch. -/
def isRetryableE (e : JsError) : Except JsError Bool :=
  if e.code = some "unavailable" then .ok true
  else if e.code = some "deadline-exceeded" then .ok true
  else
    match e.message with
    | some m => .ok (jsIncludes m "network")
    | none => .error jsTypeError

/-- MAX_RETRIES = 2 in both service modules. -/
def MAX_RETRIES : Nat := 2

instance {ε α : Type _} [DecidableEq ε] [DecidableEq α] :
    DecidableEq (Except ε α) := fun x y =>
  match x, y with
  | .ok a, .ok b =>
    if h : a = b then .isTrue (congrArg Except.ok h)
    else .isFalse (fun hc => h (Except.ok.inj hc))
  | .error a, .error b =>
    if h : a = b then .isTrue (congrArg Except.error h)
    else .isFalse (fun hc => h (Except.error.inj hc))
  | .ok _, .error _ => .isFalse (fun hc => Except.noConfusion hc)
  | .error _, .ok _ => .isFalse (fun hc => Except.noConfusion hc)

/-- Observable outcome of one withRetry call: the value returned or error
thrown, the total number of invocations of the wrapped operation, and the
number of 1-second delays awaited (one before each re-invocation). -/
structure RetryRun (α : Type) where
  result : Except JsError α
  attempts : Nat
  delays : Nat
deriving DecidableEq, Repr

/-- Recursion of withRetry. The wrapped operation is modelled as a pure
function of the attempt index (the operations wrapped in this codebase
mutate no state on a failing attempt, since the store call is their first
await). retries is the remaining-retries counter; attempt counts
invocations already made; delays counts delays already awaited. -/
def withRetryGo (op : Nat → Except JsError α) :
    Nat → Nat → Nat → RetryRun α
  | retries, attempt, delays =>
    match op attempt with
    | .ok v => ⟨.ok v, attempt + 1, delays⟩
    | .error e =>
      match isRetryableE e with
      | .error te => ⟨.error te, attempt + 1, delays⟩
      | .ok r =>
        match retries with
        | rp + 1 =>
          if r then withRetryGo op rp (attempt + 1) (delays + 1)
          else ⟨.error e, attempt + 1, delays⟩
        | 0 => ⟨.error e, attempt + 1, delays⟩

/-- withRetry(operation, retries = MAX_RETRIES). -/
def withRetry (op : Nat → Except JsError α) (retries : Nat := MAX_RETRIES) :
    RetryRun α :=
  withRetryGo op retries 0 0

/-! ### The cache layer (part_000 lines 362-396) -/

/-- CACHE_TIME = 5 * 60 * 1000 milliseconds. -/
def CACHE_TIME : Nat := 5 * 60 * 1000

/-- MAX_CACHE_SIZE = 50. -/
def MAX_CACHE_SIZE : Nat := 50

/-- FIRESTORE_IN_LIMIT = 10. -/
def FIRESTORE_IN_LIMIT : Nat := 10

/-- The store-native timestamp-bearing value of a raw document field:
either a Firestore Timestamp (carrying a wall-clock instant in ms), an
already-string value, or absent (undefined). -/
inductive TsVal where
  | fsTime (ms : Nat) : TsVal
  | str (s : String) : TsVal
  | absent : TsVal
deriving DecidableEq, Repr

/-- A normalized timestamp after processJobData:
jobData.createdAt?.toDate?.()?.toISOString() || jobData.createdAt.
The ISO rendering of an instant is modelled by the injective constructor
isoOfMs; a non-Timestamp value passes through unchanged. -/
inductive NormTs where
  | isoOfMs (ms : Nat) : NormTs
  | rawStr (s : String) : NormTs
  | undefined : NormTs
deriving DecidableEq, Repr

/-- Timestamp coercion used by processJobData. A Firestore Timestamp has
toDate, so the left operand is a (truthy, nonempty) ISO string; any other
value leaves the right operand of || as the result. -/
def normalizeTs : TsVal → NormTs
  | .fsTime ms => .isoOfMs ms
  | .str s => .rawStr s
  | .absent => .undefined

/-- The payload of a well-formed raw document: its two timestamp fields
plus the remaining free-form fields. -/
structure JobBody where
  createdAt : TsVal
  updatedAt : TsVal
  fields : List (String × String)
deriving DecidableEq, Repr

/-- A processed job object as returned to the UI. -/
structure Job where
  id : String
  createdAt : NormTs
  updatedAt : NormTs
  fields : List (String × String)
deriving DecidableEq, Repr

/-- A document snapshot handed back by the store: its id and its data()
payload, none when the payload is not a well-formed object. -/
structure RawDoc where
  id : String
  body : Option JobBody
deriving DecidableEq, Repr

/-- processJobData (part_000 lines 446-462): null for a malformed
payload, otherwise the id plus normalized timestamps and fields. -/
def processJobData (d : RawDoc) : Option Job :=
  match d.body with
  | none => none
  | some b =>
    some { id := d.id
         , createdAt := normalizeTs b.createdAt
         , updatedAt := normalizeTs b.updatedAt
         , fields := b.fields }

/-- A value stored in (and returned from) the cache: a single job or a
job list. JavaScript null is represented by Option.none around this. -/
inductive CData where
  | job (j : Job) : CData
  | jobs (l : List Job) : CData
deriving DecidableEq, Repr

/-- One cache entry: { data, timestamp }. data none is a stored
JavaScript null (the explicit not-found marker). -/
structure CacheEntry where
  data : Option CData
  timestamp : Nat
deriving DecidableEq, Repr

/-- The module-level Map, as an insertion-ordered association list. -/
abbrev Cache := List (String × CacheEntry)

/-- Map.prototype.get on an insertion-ordered association list (shared
by the cache map, the fetchedJobs map and the cachedResults map). -/
def mapGet (k : String) (c : List (String × α)) : Option α :=
  c.lookup k

/-- Map.prototype.set: an existing key keeps its position and gets the
new value (a Map holds each key once, so updating the first occurrence
models it); a new key is appended (JavaScript Map insertion order). -/
def mapSet (k : String) (v : α) : List (String × α) → List (String × α)
  | [] => [(k, v)]
  | p :: rest => if p.1 == k then (k, v) :: rest else p :: mapSet k v rest

/-- Map.prototype.delete. -/
def mapDelete (k : String) : List (String × α) → List (String × α)
  | [] => []
  | p :: rest =>
    if p.1 == k then mapDelete k rest else p :: mapDelete k rest

/-- The keys of the map in insertion order. -/
def keysOf (c : List (String × α)) : List String :=
  c.map Prod.fst

/-- isCacheValid(timestamp): Date.now() - timestamp < CACHE_TIME. The
clock is the explicit now argument; Nat subtraction truncates a negative
difference to 0, which compares below CACHE_TIME exactly as the negative
number does in JavaScript. -/
def isCacheValid (timestamp now : Nat) : Bool :=
  now - timestamp < CACHE_TIME

/-- getFromCache (part_000 lines 375-382). Returns the JavaScript value
handed to the caller (null modelled as none — indistinguishable from a
fresh entry whose stored data is null) together with the cache after the
lazy expiry deletion. A present fresh entry returns its data untouched;
otherwise the key is deleted and null returned. -/
def getFromCache (c : Cache) (key : String) (now : Nat) :
    Option CData × Cache :=
  match mapGet key c with
  | some e =>
    if isCacheValid e.timestamp now then (e.data, c)
    else (none, mapDelete key c)
  | none => (none, mapDelete key c)

/-- saveToCache (part_000 lines 385-396): when size has reached
MAX_CACHE_SIZE, delete the first (oldest-inserted) key, then set. -/
def saveToCache (c : Cache) (key : String) (data : Option CData)
    (now : Nat) : Cache :=
  let c1 :=
    if MAX_CACHE_SIZE ≤ c.length then
      match c.head? with
      | some p => mapDelete p.1 c
      | none => c
    else c
  mapSet key ⟨data, now⟩ c1

/-- clearJobCache: cache.clear(). -/
def clearJobCache (_c : Cache) : Cache := []

/-! ### chunkArray and the read services (part_000 lines 438-703) -/

/-- Fuel-indexed recursion of chunkArray. -/
def chunkArrayGo : Nat → List α → Nat → List (List α)
  | _, [], _ => []
  | _, _, 0 => []
  | 0, _ :: _, _ + 1 => []
  | f + 1, x :: xs, cs + 1 =>
    (x :: xs).take (cs + 1) :: chunkArrayGo f ((x :: xs).drop (cs + 1)) (cs + 1)

/-- chunkArray (part_000 lines 438-444): slices of length chunkSize taken
left to right, the last possibly shorter. Structured with a fuel
argument so it evaluates by kernel reduction; fuel = length never runs
out (each step drops at least one element). The source is only called
with chunkSize = FIRESTORE_IN_LIMIT; a zero chunkSize, which would loop
forever in the source, returns [] here. -/
def chunkArray (l : List α) (chunkSize : Nat) : List (List α) :=
  chunkArrayGo l.length l chunkSize

/-- Message thrown by fetchAllJobs after an exhausted fetch with no
fallback. -/
def fetchAllJobsErr : String :=
  "Unable to load jobs. Please check your connection and try again."

/-- Result of a fetchAllJobs call: the returned JavaScript value (ok) or
the thrown user-facing message (error), plus the final cache. -/
structure FetchAllOutcome where
  result : Except String (Option CData)
  cache : Cache
deriving DecidableEq, Repr

/-- The operation fetchAllJobs hands to withRetry: the full-collection
sorted query (the store oracle, indexed by attempt), then the forEach
loop that collects processed jobs and write-through caches each one under
its id key. A failing attempt fails at getDocs, before any mutation. -/
def fetchAllJobsOp (store : Nat → Except JsError (List RawDoc)) (c : Cache)
    (now : Nat) (attempt : Nat) : Except JsError (List Job × Cache) :=
  (store attempt).map fun docs =>
    docs.foldl
      (fun acc d =>
        match processJobData d with
        | some j =>
          (acc.1 ++ [j], saveToCache acc.2 ("job_" ++ j.id) (some (.job j)) now)
        | none => acc)
      ([], c)

/-- fetchAllJobs (part_000 lines 469-524). The aggregate cache key is
all_jobs_sorted. The initial cache check tests the truthiness of the
returned data (a CData object or array is always truthy, a stored null is
falsy); the catch block reads the raw map entry, ignoring TTL. -/
def fetchAllJobs (store : Nat → Except JsError (List RawDoc))
    (useCache : Bool) (c0 : Cache) (now : Nat) : FetchAllOutcome :=
  let cacheKey := "all_jobs_sorted"
  let hitAndCache :=
    if useCache then getFromCache c0 cacheKey now else (none, c0)
  let c1 := hitAndCache.2
  match hitAndCache.1 with
  | some d => ⟨.ok (some d), c1⟩
  | none =>
    match (withRetry (fetchAllJobsOp store c1 now)).result with
    | .ok (jobs, c2) =>
      ⟨.ok (some (.jobs jobs)), saveToCache c2 cacheKey (some (.jobs jobs)) now⟩
    | .error _ =>
      if useCache then
        match mapGet cacheKey c1 with
        | some entry => ⟨.ok entry.data, c1⟩
        | none => ⟨.error fetchAllJobsErr, c1⟩
      else ⟨.error fetchAllJobsErr, c1⟩

/-- Message thrown by fetchJobById after an exhausted fetch with no
fallback. -/
def fetchJobByIdErr : String :=
  "Unable to load job details. Please check your connection and try again."

/-- Result of a fetchJobById call: the returned JavaScript value or the
thrown message, the final cache, and the number of remote point-lookup
invocations performed. -/
structure FetchByIdOutcome where
  result : Except String (Option CData)
  cache : Cache
  attempts : Nat
deriving DecidableEq, Repr

/-- The operation fetchJobById hands to withRetry: a point lookup whose
oracle yields none when the document does not exist, in which case the
source returns null; otherwise processJobData of the snapshot. -/
def fetchJobByIdOp (store : Nat → Except JsError (Option RawDoc))
    (attempt : Nat) : Except JsError (Option Job) :=
  (store attempt).map fun d? =>
    match d? with
    | none => none
    | some d => processJobData d

/-- fetchJobById (part_000 lines 532-587). Input validation rejects a
falsy, non-string, or blank-after-trim id. The cache check is
cached !== null on the value returned by getFromCache, so a fresh entry
whose stored data is null is indistinguishable from a miss and falls
through to the remote lookup. -/
def fetchJobById (store : Nat → Except JsError (Option RawDoc))
    (jobId : JSVal) (useCache : Bool) (c0 : Cache) (now : Nat) :
    FetchByIdOutcome :=
  if ¬ (jsTruthy jobId && jobId.isStr) then
    ⟨.error "Please provide a valid job ID", c0, 0⟩
  else
    match jobId with
    | .str s =>
      if jsTrim s = "" then ⟨.error "Please provide a valid job ID", c0, 0⟩
      else
        let cleanJobId := jsTrim s
        let cacheKey := "job_" ++ cleanJobId
        let hitAndCache :=
          if useCache then getFromCache c0 cacheKey now else (none, c0)
        let c1 := hitAndCache.2
        match hitAndCache.1 with
        | some d => ⟨.ok (some d), c1, 0⟩
        | none =>
          let run := withRetry (fetchJobByIdOp store)
          match run.result with
          | .ok j? =>
            let data : Option CData := j?.map CData.job
            ⟨.ok data, saveToCache c1 cacheKey data now, run.attempts⟩
          | .error _ =>
            if useCache then
              match mapGet cacheKey c1 with
              | some entry => ⟨.ok entry.data, c1, run.attempts⟩
              | none => ⟨.error fetchJobByIdErr, c1, run.attempts⟩
            else ⟨.error fetchJobByIdErr, c1, run.attempts⟩
    | _ => ⟨.error "Please provide a valid job ID", c0, 0⟩

/-- The id filter and trim of fetchJobsByIds (part_000 lines 599-602):
keep truthy strings whose trim is nonempty, trimmed. -/
def validIds (jobIds : List JSVal) : List String :=
  jobIds.filterMap fun v =>
    match v with
    | .str s => if s ≠ "" ∧ jsTrim s ≠ "" then some (jsTrim s) else none
    | _ => none

/-- Fuel-indexed recursion of first-occurrence deduplication (helper for
the membership-query model: Firestore returns each matching document
once). -/
def dedupFirstGo : Nat → List String → List String
  | _, [] => []
  | 0, _ :: _ => []
  | f + 1, x :: xs => x :: dedupFirstGo f (xs.filter (fun y => y != x))

/-- First-occurrence deduplication, with fuel = length (never exhausted,
since filter does not lengthen the tail). -/
def dedupFirst (l : List String) : List String :=
  dedupFirstGo l.length l

/-- The document list returned by a membership (documentId in chunk)
query against database db: one snapshot per distinct requested id that
exists, carrying its stored payload (none for a malformed payload). -/
def queryDocs (db : String → Option (Option JobBody))
    (chunk : List String) : List RawDoc :=
  (dedupFirst chunk).filterMap fun id =>
    (db id).map fun b => RawDoc.mk id b

/-- Message thrown by fetchJobsByIds after a chunk failure with no usable
fallback. -/
def fetchJobsByIdsErr : String :=
  "Unable to load job details. Please try again."

/-- Result of a fetchJobsByIds call: the returned list of JavaScript
values (null as none) or the thrown message, the final cache, and the
total number of remote membership-query invocations. -/
structure BatchOutcome where
  result : Except String (List (Option CData))
  cache : Cache
  queries : Nat
deriving DecidableEq, Repr

/-- State threaded through the chunk-processing loop of fetchJobsByIds:
the fetchedJobs map, the cache, the query count, and the first chunk
error if any (Promise.all rejects, but every chunk promise still runs its
mutations). -/
structure ChunkState where
  fetched : List (String × Option Job)
  cache : Cache
  queries : Nat
  firstErr : Option JsError
deriving Repr

/-- The forEach body run for each returned snapshot of a successful
chunk query: record each well-formed processed job in fetchedJobs and
write-through cache it. -/
def chunkStep (now : Nat)
    (acc : List (String × Option Job) × Cache) (d : RawDoc) :
    List (String × Option Job) × Cache :=
  match processJobData d with
  | some j =>
    (mapSet j.id (some j) acc.1,
     saveToCache acc.2 ("job_" ++ j.id) (some (.job j)) now)
  | none => acc

/-- The body of the pass recording an explicit null for every uncached id
absent from the fetched results (cached as null when useCache). -/
def nfStep (useCache : Bool) (now : Nat)
    (acc : List (String × Option Job) × Cache) (id : String) :
    List (String × Option Job) × Cache :=
  if acc.1.any (fun p => p.1 == id) then acc
  else
    (mapSet id none acc.1,
     if useCache then saveToCache acc.2 ("job_" ++ id) none now else acc.2)

/-- One chunk of the batched fetch: withRetry around the membership
query; on success the forEach loop (chunkStep) runs on each snapshot.
fail gives the transient error injected at a given (chunk index,
attempt), none for success. -/
def runChunk (db : String → Option (Option JobBody))
    (fail : Nat → Nat → Option JsError) (now : Nat) (st : ChunkState)
    (idx : Nat) (chunk : List String) : ChunkState :=
  let run := withRetry (fun attempt =>
    match fail idx attempt with
    | some e => .error e
    | none => .ok (queryDocs db chunk))
  match run.result with
  | .ok docs =>
    let step := docs.foldl (chunkStep now) (st.fetched, st.cache)
    ⟨step.1, step.2, st.queries + run.attempts, st.firstErr⟩
  | .error e =>
    ⟨st.fetched, st.cache, st.queries + run.attempts,
     st.firstErr <|> some e⟩

/-- The cache-probing loop of fetchJobsByIds: walks the valid ids,
collecting fresh non-null hits into cachedResults and the rest into
uncachedIds, threading the cache through getFromCache (lazy deletions). -/
def probeCache (now : Nat) :
    List String → List (String × CData) → List String → Cache →
    (List (String × CData) × List String × Cache)
  | [], cachedResults, uncachedIds, c => (cachedResults, uncachedIds, c)
  | id :: rest, cachedResults, uncachedIds, c =>
    let hit := getFromCache c ("job_" ++ id) now
    match hit.1 with
    | some d =>
      probeCache now rest (mapSet id d cachedResults) uncachedIds hit.2
    | none =>
      probeCache now rest cachedResults (uncachedIds ++ [id]) hit.2

/-- fetchJobsByIds (part_000 lines 593-703). The store is modelled as a
fixed database db plus a transient-failure schedule fail per (chunk
index, attempt); chunk queries are dispatched concurrently in the source
and processed sequentially here (results are keyed by id, and every chunk
promise runs to completion even when Promise.all rejects early). -/
def fetchJobsByIds (db : String → Option (Option JobBody))
    (fail : Nat → Nat → Option JsError) (jobIds : List JSVal)
    (useCache : Bool) (c0 : Cache) (now : Nat) : BatchOutcome :=
  if jobIds = [] then ⟨.ok [], c0, 0⟩
  else
    let validJobIds := validIds jobIds
    if validJobIds = [] then ⟨.ok [], c0, 0⟩
    else
      let probed :=
        if useCache then probeCache now validJobIds [] [] c0
        else ([], validJobIds, c0)
      let cachedResults := probed.1
      let uncachedIds := probed.2.1
      let c1 := probed.2.2
      if uncachedIds = [] then
        ⟨.ok (validJobIds.map fun id => (cachedResults.lookup id)), c1, 0⟩
      else
        let idChunks := chunkArray uncachedIds FIRESTORE_IN_LIMIT
        let afterChunks : ChunkState :=
          idChunks.enum.foldl
            (fun st p => runChunk db fail now st p.1 p.2)
            ⟨[], c1, 0, none⟩
        match afterChunks.firstErr with
        | none =>
          let afterNotFound := uncachedIds.foldl (nfStep useCache now)
            (afterChunks.fetched, afterChunks.cache)
          let finalResults := validJobIds.map fun id =>
            match cachedResults.lookup id with
            | some d => some d
            | none => ((afterNotFound.1.lookup id).getD none).map CData.job
          ⟨.ok finalResults, afterNotFound.2, afterChunks.queries⟩
        | some _ =>
          if useCache then
            let fallbackResults := validJobIds.map fun id =>
              match mapGet ("job_" ++ id) afterChunks.cache with
              | some entry => entry.data
              | none => none
            if fallbackResults.any (fun j => j ≠ none) then
              ⟨.ok fallbackResults, afterChunks.cache, afterChunks.queries⟩
            else ⟨.error fetchJobsByIdsErr, afterChunks.cache,
                  afterChunks.queries⟩
          else ⟨.error fetchJobsByIdsErr, afterChunks.cache,
                afterChunks.queries⟩

/-! ### The write service (part_011: validateJobData, postJob) -/

/-- Numeric value of a list of decimal digit characters (0 for []). -/
def natVal (cs : List Char) : Nat :=
  cs.foldl (fun a c => a * 10 + (c.toNat - 48)) 0

/-- The rational value of a signed decimal with integer digits ip and
fraction digits fp (built with mkRat so it evaluates by kernel
reduction). -/
def decToRat (sign : Int) (ip fp : List Char) : ℚ :=
  mkRat (sign * (Int.ofNat (natVal ip * 10 ^ fp.length + natVal fp)))
    (10 ^ fp.length)

/-- Model of the host coercion Number(string) as used by isNaN on the
salary strings of this form: trimmed empty gives 0; an optional sign
followed by decimal digits with at most one point gives its value; other
strings (exponents and hex are not exercised by this code) give NaN. -/
def jsStringToNumber (s : String) : Option ℚ :=
  let cs := trimChars s.toList
  if cs = [] then some 0
  else
    let sign : Int := if cs.head? = some '-' then -1 else 1
    let body :=
      if cs.head? = some '-' ∨ cs.head? = some '+' then cs.drop 1 else cs
    match splitChar '.' body with
    | [ip] =>
      if ip ≠ [] ∧ ip.all Char.isDigit then some (decToRat sign ip [])
      else none
    | [ip, fp] =>
      if (ip ≠ [] ∨ fp ≠ []) ∧ ip.all Char.isDigit ∧ fp.all Char.isDigit then
        some (decToRat sign ip fp)
      else none
    | _ => none

/-- Model of the host coercion ToNumber, as applied by the global isNaN:
undefined is NaN, null is 0, strings via jsStringToNumber, numbers
unchanged. -/
def jsToNumber : JSVal → Option ℚ
  | .undefined => none
  | .nullv => some 0
  | .str s => jsStringToNumber s
  | .num q => q

/-- isNaN(v): NaN after ToNumber coercion. -/
def jsIsNaN (v : JSVal) : Bool :=
  (jsToNumber v).isNone

/-- Model of the host parseFloat on a string: skip leading whitespace,
optional sign, then the longest digits-point-digits lead; NaN when no
digit is found. -/
def parseFloatLead (s : String) : Option ℚ :=
  let cs := s.toList.dropWhile Char.isWhitespace
  let sign : Int := if cs.head? = some '-' then -1 else 1
  let cs1 :=
    if cs.head? = some '-' ∨ cs.head? = some '+' then cs.drop 1 else cs
  let ip := cs1.takeWhile Char.isDigit
  let rest := cs1.dropWhile Char.isDigit
  match rest.head? with
  | some '.' =>
    let fp := (rest.drop 1).takeWhile Char.isDigit
    if ip = [] ∧ fp = [] then none
    else some (decToRat sign ip fp)
  | _ =>
    if ip = [] then none else some (decToRat sign ip [])

/-- parseFloat(v): the host first stringifies its argument; a finite
number round-trips to itself, NaN, undefined and null stringify to words
with no numeric lead. -/
def jsParseFloat : JSVal → Option ℚ
  | .str s => parseFloatLead s
  | .num q => q
  | .undefined => none
  | .nullv => none

/-- Modelled host builtin Date.parse restricted to the simple ISO
YYYY-MM-DD form (none is NaN); other shapes accepted by some hosts are
not exercised by the claims. -/
def parseIsoDate (s : String) : Option Nat :=
  match splitChar '-' s.toList with
  | [y, m, d] =>
    if y.length = 4 ∧ y.all Char.isDigit ∧ m.length = 2 ∧ m.all Char.isDigit
        ∧ d.length = 2 ∧ d.all Char.isDigit then
      if 1 ≤ natVal m ∧ natVal m ≤ 12 ∧ 1 ≤ natVal d ∧ natVal d ≤ 31 then
        some (natVal y * 10000 + natVal m * 100 + natVal d)
      else none
    else none
  | _ => none

/-- Date.parse applied to the date field value (non-strings coerce to
non-date strings for the values occurring here). -/
def jsDateParse : JSVal → Option Nat
  | .str s => parseIsoDate s
  | _ => none

/-- The job form object passed to postJob, with the seven validated
fields as JavaScript values (absent fields are undefined). -/
structure JobFormData where
  date : JSVal
  hospital : JSVal
  location : JSVal
  position : JSVal
  salary : JSVal
  schedule : JSVal
  type : JSVal
deriving DecidableEq, Repr

/-- Dynamic field access jobData[field] for the required-field loop. -/
def getField (d : JobFormData) : String → JSVal
  | "date" => d.date
  | "hospital" => d.hospital
  | "location" => d.location
  | "position" => d.position
  | "salary" => d.salary
  | "schedule" => d.schedule
  | "type" => d.type
  | _ => .undefined

/-- The required list of validateJobData (part_011 lines 48-56). -/
def requiredFields : List String :=
  ["date", "hospital", "location", "position", "salary", "schedule", "type"]

/-- The required-field loop of validateJobData: a falsy field throws
"<field> is required"; a string field blank after trim throws
"<field> cannot be empty". -/
def checkRequired (d : JobFormData) : List String → Except String Unit
  | [] => .ok ()
  | f :: rest =>
    let v := getField d f
    if ¬ jsTruthy v then .error (f ++ " is required")
    else
      match v with
      | .str s =>
        if jsTrim s = "" then .error (f ++ " cannot be empty")
        else checkRequired d rest
      | _ => checkRequired d rest

/-- validateJobData (part_011 lines 47-83): required fields, then
salary positivity (isNaN(salary) || parseFloat(salary) <= 0; a NaN
parseFloat result compares false), then the type enumeration (Array
includes with strict equality), then the date parse. -/
def validateJobData (d : JobFormData) : Except String Unit :=
  match checkRequired d requiredFields with
  | .error e => .error e
  | .ok _ =>
    if jsIsNaN d.salary ||
        (match jsParseFloat d.salary with
         | some q => decide (q ≤ 0)
         | none => false) then
      .error "Salary must be a positive number"
    else if ¬ (d.type = .str "permanent" ∨ d.type = .str "relieving") then
      .error "Job type must be either \"permanent\" or \"relieving\""
    else if jsDateParse d.date = none then
      .error "Invalid date format"
    else .ok ()

/-- The non-blank string guard of postJob on userId and userName:
!v || typeof v !== "string" || !v.trim(). -/
def jsNonBlankStr : JSVal → Option String
  | .str s => if s ≠ "" ∧ jsTrim s ≠ "" then some s else none
  | _ => none

/-- The sanitized record built by postJob (cleanJobData). The
serverTimestamp() sentinel stored in createdAt is resolved by the store
and is not part of the observable record modelled here. -/
structure CleanJob where
  date : JSVal
  hospital : String
  location : String
  position : String
  salary : Option ℚ
  schedule : String
  type : JSVal
  createdBy : String
  createdById : String
  status : String
deriving DecidableEq, Repr

/-- Message of the TypeError thrown by calling .trim() on a non-string
field while building cleanJobData (modelled host wording). -/
def trimTypeErr : String := "trim is not a function"

/-- .trim() as a method call: throws a TypeError on a non-string. -/
def jsTrimMethod : JSVal → Except String String
  | .str s => .ok (jsTrim s)
  | _ => .error trimTypeErr

/-- The structured value returned by postJob. -/
structure PostResult where
  success : Bool
  data : Option (String × CleanJob)
  message : String
  error : Option String
deriving DecidableEq, Repr

/-- The catch block of postJob (part_011 lines 143-159): a structured
failure whose message is the thrown message verbatim only when it
contains "required" or "must be", and a generic message otherwise. -/
def postFailure (msg : String) : PostResult :=
  { success := false
  , data := none
  , message :=
      if jsIncludes msg "required" || jsIncludes msg "must be" then msg
      else "Failed to post job. Please check your connection and try again."
  , error := some msg }

/-- postJob (part_011 lines 92-161). addStore is the addDoc oracle
indexed by attempt, yielding the assigned id; the second component
counts addDoc invocations. The overall Except is .error only when the
catch block itself throws (a store error whose message is not a string
hits error.message.includes). -/
def postJob (addStore : Nat → Except JsError String)
    (jobData : Option JobFormData) (userId userName : JSVal) :
    Except String PostResult × Nat :=
  match jobData with
  | none => (.ok (postFailure "Job data is required"), 0)
  | some d =>
    match jsNonBlankStr userId with
    | none => (.ok (postFailure "User ID is required"), 0)
    | some uid =>
      match jsNonBlankStr userName with
      | none => (.ok (postFailure "User name is required"), 0)
      | some uname =>
        match validateJobData d with
        | .error msg => (.ok (postFailure msg), 0)
        | .ok _ =>
          match jsTrimMethod d.hospital with
          | .error te => (.ok (postFailure te), 0)
          | .ok h =>
            match jsTrimMethod d.location with
            | .error te => (.ok (postFailure te), 0)
            | .ok loc =>
              match jsTrimMethod d.position with
              | .error te => (.ok (postFailure te), 0)
              | .ok pos =>
                match jsTrimMethod d.schedule with
                | .error te => (.ok (postFailure te), 0)
                | .ok sch =>
                  let clean : CleanJob :=
                    { date := d.date
                    , hospital := h
                    , location := loc
                    , position := pos
                    , salary := jsParseFloat d.salary
                    , schedule := sch
                    , type := d.type
                    , createdBy := jsTrim uname
                    , createdById := jsTrim uid
                    , status := "active" }
                  let run := withRetry addStore
                  match run.result with
                  | .ok newId =>
                    (.ok { success := true
                         , data := some (newId, clean)
                         , message := "Job posted successfully"
                         , error := none }, run.attempts)
                  | .error e =>
                    match e.message with
                    | some m => (.ok (postFailure m), run.attempts)
                    | none =>
                      (.error (jsTypeError.message.getD ""), run.attempts)

/-! ### Association-list lemmas for the map model -/

/-- The keys of the map are pairwise distinct (maintained by the Map
semantics; concrete maps are checked by decide). -/
def keysNodup (c : List (String × α)) : Prop :=
  (keysOf c).Nodup

instance (c : List (String × α)) : Decidable (keysNodup c) :=
  inferInstanceAs (Decidable (keysOf c).Nodup)

theorem mapGet_eq_none_iff (k : String) (c : List (String × α)) :
    mapGet k c = none ↔ ∀ p ∈ c, p.1 ≠ k := by
  induction c with
  | nil => simp [mapGet]
  | cons p rest ih =>
    simp only [mapGet, List.lookup] at ih ⊢
    cases hkp : (k == p.1) with
    | true =>
      have := beq_iff_eq.mp hkp
      simp [this]
    | false =>
      have := beq_eq_false_iff_ne.mp hkp
      simp only [List.mem_cons]
      constructor
      · intro h q hq
        rcases hq with hq | hq
        · subst hq; exact fun hc => this hc.symm
        · exact (ih.mp h) q hq
      · intro h
        exact ih.mpr (fun q hq => h q (Or.inr hq))

theorem mapGet_isSome_iff_mem_keys (k : String) (c : List (String × α)) :
    (mapGet k c).isSome ↔ k ∈ keysOf c := by
  induction c with
  | nil => simp [mapGet, keysOf]
  | cons p rest ih =>
    simp only [mapGet, List.lookup, keysOf, List.map_cons, List.mem_cons] at ih ⊢
    cases hkp : (k == p.1) with
    | true =>
      have := beq_iff_eq.mp hkp
      simp [this]
    | false =>
      have := beq_eq_false_iff_ne.mp hkp
      simp [ih, this]

theorem mapGet_mapSet_self (k : String) (v : α) (c : List (String × α)) :
    mapGet k (mapSet k v c) = some v := by
  induction c with
  | nil => simp [mapGet, mapSet, List.lookup]
  | cons p rest ih =>
    cases hpk : (p.1 == k) with
    | true => simp [mapSet, mapGet, List.lookup, hpk]
    | false =>
      have hne := beq_eq_false_iff_ne.mp hpk
      have hkp : (k == p.1) = false :=
        beq_eq_false_iff_ne.mpr (fun hc => hne hc.symm)
      simp only [mapSet, hpk, Bool.false_eq_true, if_false]
      simp only [mapGet, List.lookup, hkp] at ih ⊢
      exact ih

theorem mapGet_mapSet_other (k k' : String) (v : α) (c : List (String × α))
    (h : k' ≠ k) : mapGet k' (mapSet k v c) = mapGet k' c := by
  induction c with
  | nil =>
    have hk'k : (k' == k) = false := beq_eq_false_iff_ne.mpr h
    simp [mapGet, mapSet, List.lookup, hk'k]
  | cons p rest ih =>
    cases hpk : (p.1 == k) with
    | true =>
      have hp := beq_iff_eq.mp hpk
      have hk'k : (k' == k) = false := beq_eq_false_iff_ne.mpr h
      have hk'p : (k' == p.1) = false :=
        beq_eq_false_iff_ne.mpr (fun hc => h (hc.trans hp))
      simp [mapSet, mapGet, List.lookup, hpk, hk'k, hk'p]
    | false =>
      simp only [mapSet, hpk, Bool.false_eq_true, if_false]
      simp only [mapGet, List.lookup] at ih ⊢
      cases hk'p : (k' == p.1) with
      | true => simp [hk'p]
      | false => simp only [hk'p]; exact ih

theorem length_mapSet (k : String) (v : α) (c : List (String × α)) :
    (mapSet k v c).length =
      if (mapGet k c).isSome then c.length else c.length + 1 := by
  induction c with
  | nil => simp [mapSet, mapGet, List.lookup]
  | cons p rest ih =>
    cases hpk : (p.1 == k) with
    | true =>
      have hkp : (k == p.1) = true :=
        beq_iff_eq.mpr (beq_iff_eq.mp hpk).symm
      simp [mapSet, mapGet, List.lookup, hpk, hkp]
    | false =>
      have hne := beq_eq_false_iff_ne.mp hpk
      have hkp : (k == p.1) = false :=
        beq_eq_false_iff_ne.mpr (fun hc => hne hc.symm)
      simp only [mapSet, hpk, Bool.false_eq_true, if_false, List.length_cons,
        mapGet, List.lookup, hkp]
      simp only [mapGet] at ih
      rw [ih]
      by_cases hs : (List.lookup k rest).isSome
      · simp [hs]
      · simp [hs]

theorem mapGet_mapDelete_self (k : String) (c : List (String × α)) :
    mapGet k (mapDelete k c) = none := by
  induction c with
  | nil => simp [mapGet, mapDelete, List.lookup]
  | cons p rest ih =>
    cases hpk : (p.1 == k) with
    | true => simp only [mapDelete, hpk, if_true]; exact ih
    | false =>
      have hne := beq_eq_false_iff_ne.mp hpk
      have hkp : (k == p.1) = false :=
        beq_eq_false_iff_ne.mpr (fun hc => hne hc.symm)
      simp only [mapDelete, hpk, Bool.false_eq_true, if_false]
      simp only [mapGet, List.lookup, hkp]
      exact ih

theorem mapGet_mapDelete_other (k k' : String) (c : List (String × α))
    (h : k' ≠ k) : mapGet k' (mapDelete k c) = mapGet k' c := by
  induction c with
  | nil => rfl
  | cons p rest ih =>
    cases hpk : (p.1 == k) with
    | true =>
      have hp := beq_iff_eq.mp hpk
      have hk'p : (k' == p.1) = false :=
        beq_eq_false_iff_ne.mpr (fun hc => h (hc.trans hp))
      simp only [mapDelete, hpk, if_true]
      rw [ih]
      simp [mapGet, List.lookup, hk'p]
    | false =>
      simp only [mapDelete, hpk, Bool.false_eq_true, if_false]
      simp only [mapGet, List.lookup] at ih ⊢
      cases hk'p : (k' == p.1) with
      | true => simp [hk'p]
      | false => simp only [hk'p]; exact ih

theorem length_mapDelete_le (k : String) (c : List (String × α)) :
    (mapDelete k c).length ≤ c.length := by
  induction c with
  | nil => simp [mapDelete]
  | cons p rest ih =>
    cases hpk : (p.1 == k) with
    | true =>
      simp only [mapDelete, hpk, if_true, List.length_cons]
      omega
    | false =>
      simp only [mapDelete, hpk, Bool.false_eq_true, if_false,
        List.length_cons]
      omega

theorem length_mapDelete_nodup_mem (k : String) (c : List (String × α))
    (hnd : keysNodup c) (hmem : k ∈ keysOf c) :
    (mapDelete k c).length + 1 = c.length := by
  induction c with
  | nil => simp [keysOf] at hmem
  | cons p rest ih =>
    simp only [keysNodup, keysOf, List.map_cons, List.nodup_cons] at hnd
    simp only [keysOf, List.map_cons, List.mem_cons] at hmem
    cases hpk : (p.1 == k) with
    | true =>
      have hp := beq_iff_eq.mp hpk
      have hrest : mapDelete k rest = rest := by
        have hnotin : k ∉ keysOf rest := hp ▸ hnd.1
        clear ih hmem hnd
        induction rest with
        | nil => rfl
        | cons q qs ihq =>
          simp only [keysOf, List.map_cons, List.mem_cons, not_or] at hnotin
          have hqk : (q.1 == k) = false :=
            beq_eq_false_iff_ne.mpr (fun hc => hnotin.1 hc.symm)
          simp only [mapDelete, hqk, Bool.false_eq_true, if_false]
          rw [ihq hnotin.2]
      simp [mapDelete, hpk, hrest]
    | false =>
      have hne := beq_eq_false_iff_ne.mp hpk
      have hmem2 : k ∈ keysOf rest := by
        rcases hmem with h1 | h2
        · exact absurd h1.symm hne
        · exact h2
      have := ih hnd.2 hmem2
      simp only [mapDelete, hpk, Bool.false_eq_true, if_false,
        List.length_cons]
      omega

theorem keysNodup_mapSet (k : String) (v : α) (c : List (String × α))
    (hnd : keysNodup c) : keysNodup (mapSet k v c) := by
  induction c with
  | nil => simp [keysNodup, keysOf, mapSet]
  | cons p rest ih =>
    simp only [keysNodup, keysOf, List.map_cons, List.nodup_cons] at hnd
    cases hpk : (p.1 == k) with
    | true =>
      have hp := beq_iff_eq.mp hpk
      simp only [mapSet, hpk, if_true, keysNodup, keysOf, List.map_cons,
        List.nodup_cons]
      exact ⟨hp ▸ hnd.1, hnd.2⟩
    | false =>
      have hne := beq_eq_false_iff_ne.mp hpk
      have hrec := ih hnd.2
      simp only [mapSet, hpk, Bool.false_eq_true, if_false, keysNodup,
        keysOf, List.map_cons, List.nodup_cons] at hrec ⊢
      refine ⟨?_, hrec⟩
      intro hcon
      have hkeys : ∀ q : String, q ∈ keysOf (mapSet k v rest) →
          q = k ∨ q ∈ keysOf rest := by
        clear hrec hcon ih hnd
        intro q
        induction rest with
        | nil => simp [mapSet, keysOf]
        | cons r rs ihr =>
          cases hrk : (r.1 == k) with
          | true =>
            simp only [mapSet, hrk, if_true, keysOf, List.map_cons,
              List.mem_cons]
            intro hq
            rcases hq with hq | hq
            · exact Or.inl hq
            · exact Or.inr (Or.inr hq)
          | false =>
            simp only [mapSet, hrk, Bool.false_eq_true, if_false, keysOf,
              List.map_cons, List.mem_cons] at ihr ⊢
            intro hq
            rcases hq with hq | hq
            · exact Or.inr (Or.inl hq)
            · rcases ihr hq with h1 | h2
              · exact Or.inl h1
              · exact Or.inr (Or.inr h2)
      rcases hkeys p.1 hcon with h1 | h2
      · exact hne h1
      · exact hnd.1 h2

theorem keysNodup_mapDelete (k : String) (c : List (String × α))
    (hnd : keysNodup c) : keysNodup (mapDelete k c) := by
  induction c with
  | nil => simp [keysNodup, keysOf, mapDelete]
  | cons p rest ih =>
    simp only [keysNodup, keysOf, List.map_cons, List.nodup_cons] at hnd
    have hrec := ih hnd.2
    cases hpk : (p.1 == k) with
    | true => simp only [mapDelete, hpk, if_true]; exact hrec
    | false =>
      simp only [mapDelete, hpk, Bool.false_eq_true, if_false, keysNodup,
        keysOf, List.map_cons, List.nodup_cons]
      refine ⟨?_, hrec⟩
      intro hcon
      have hsub : ∀ q : String, q ∈ keysOf (mapDelete k rest) →
          q ∈ keysOf rest := by
        clear hrec hcon ih hnd
        intro q
        induction rest with
        | nil => simp [mapDelete]
        | cons r rs ihr =>
          cases hrk : (r.1 == k) with
          | true =>
            simp only [mapDelete, hrk, if_true, keysOf, List.map_cons,
              List.mem_cons]
            intro hq
            exact Or.inr (ihr hq)
          | false =>
            simp only [mapDelete, hrk, Bool.false_eq_true, if_false, keysOf,
              List.map_cons, List.mem_cons] at ihr ⊢
            intro hq
            rcases hq with hq | hq
            · exact Or.inl hq
            · exact Or.inr (ihr hq)
      exact hnd.1 (hsub p.1 hcon)

/-! ### Cache-layer claims -/

theorem headKey_mem_keys (c : List (String × α)) (p : String × α)
    (h : c.head? = some p) : p.1 ∈ keysOf c := by
  cases c with
  | nil => simp at h
  | cons q rest =>
    simp only [List.head?_cons, Option.some.injEq] at h
    subst h
    simp [keysOf]

theorem mapGet_mapDelete_none (k j : String) (c : List (String × α))
    (h : mapGet k c = none) : mapGet k (mapDelete j c) = none := by
  by_cases hkj : k = j
  · subst hkj; exact mapGet_mapDelete_self k c
  · rw [mapGet_mapDelete_other j k c hkj]; exact h

theorem saveToCache_full (q : String × CacheEntry) (rest : Cache)
    (k : String) (d : Option CData) (now : Nat)
    (h50 : MAX_CACHE_SIZE ≤ (q :: rest).length) :
    saveToCache (q :: rest) k d now
      = mapSet k ⟨d, now⟩ (mapDelete q.1 (q :: rest)) := by
  unfold saveToCache
  have h50a : MAX_CACHE_SIZE ≤ rest.length + 1 := by simpa using h50
  simp [h50a]

theorem saveToCache_small (c : Cache) (k : String) (d : Option CData)
    (now : Nat) (h : ¬ MAX_CACHE_SIZE ≤ c.length) :
    saveToCache c k d now = mapSet k ⟨d, now⟩ c := by
  unfold saveToCache
  simp [h]

/-- Claim C8: saveToCache of value v under key k followed immediately by
getFromCache of k, with less than CACHE_TIME elapsed and no intervening
operation, returns v (here v is the stored JavaScript value, null
included). -/
theorem cache_put_get_roundtrip (c : Cache) (k : String) (d : Option CData)
    (now now' : Nat) (h : now' - now < CACHE_TIME) :
    (getFromCache (saveToCache c k d now) k now').1 = d := by
  unfold saveToCache getFromCache
  rw [mapGet_mapSet_self]
  simp [isCacheValid, h]

/-- Witness for C8 at a concrete put/get pair. -/
theorem cache_put_get_roundtrip_witness :
    (100 : Nat) - 40 < CACHE_TIME ∧
    (getFromCache (saveToCache [] "all_jobs_sorted" (some (.jobs [])) 40)
      "all_jobs_sorted" 100).1 = some (.jobs []) :=
  ⟨by decide, cache_put_get_roundtrip [] "all_jobs_sorted"
    (some (.jobs [])) 40 100 (by decide)⟩

/-- Claim C7: the cache never exceeds MAX_CACHE_SIZE entries. saveToCache
preserves the bound (and key distinctness); getFromCache never grows the
cache; a saveToCache of a fresh key at exactly MAX_CACHE_SIZE entries
evicts precisely the oldest-inserted (head) key and leaves the size at
MAX_CACHE_SIZE; clearJobCache trivially respects the bound. -/
theorem cache_bound_invariant :
    (∀ (c : Cache) (k : String) (d : Option CData) (now : Nat),
      keysNodup c → c.length ≤ MAX_CACHE_SIZE →
      (saveToCache c k d now).length ≤ MAX_CACHE_SIZE ∧
        keysNodup (saveToCache c k d now)) ∧
    (∀ (c : Cache) (key : String) (now : Nat),
      (getFromCache c key now).2.length ≤ c.length ∧
        (keysNodup c → keysNodup (getFromCache c key now).2)) ∧
    (∀ (c : Cache) (k : String) (d : Option CData) (now : Nat)
        (p : String × CacheEntry),
      keysNodup c → c.length = MAX_CACHE_SIZE → c.head? = some p →
      mapGet k c = none →
      (saveToCache c k d now).length = MAX_CACHE_SIZE ∧
        mapGet p.1 (saveToCache c k d now) = none) ∧
    (∀ c : Cache, (clearJobCache c).length ≤ MAX_CACHE_SIZE) := by
  refine ⟨?_, ?_, ?_, ?_⟩
  · intro c k d now hnd hle
    by_cases h50 : MAX_CACHE_SIZE ≤ c.length
    · have hlen : c.length = MAX_CACHE_SIZE := le_antisymm hle h50
      cases c with
      | nil => simp [MAX_CACHE_SIZE] at hlen
      | cons q rest =>
        rw [saveToCache_full q rest k d now h50]
        have hmem : q.1 ∈ keysOf (q :: rest) := by simp [keysOf]
        have hdel := length_mapDelete_nodup_mem q.1 (q :: rest) hnd hmem
        have hnd2 := keysNodup_mapDelete q.1 (q :: rest) hnd
        refine ⟨?_, keysNodup_mapSet k _ _ hnd2⟩
        rw [length_mapSet]
        cases hs : mapGet k (mapDelete q.1 (q :: rest)) with
        | some e => simp only [hs, Option.isSome_some, if_true]; omega
        | none =>
          simp only [hs, Option.isSome_none, Bool.false_eq_true, if_false]
          omega
    · rw [saveToCache_small c k d now h50]
      refine ⟨?_, keysNodup_mapSet k _ _ hnd⟩
      rw [length_mapSet]
      cases hs : mapGet k c with
      | some e => simp only [hs, Option.isSome_some, if_true]; exact hle
      | none =>
        simp only [hs, Option.isSome_none, Bool.false_eq_true, if_false]
        omega
  · intro c key now
    unfold getFromCache
    cases hget : mapGet key c with
    | some e =>
      by_cases hv : isCacheValid e.timestamp now
      · simp [hv]
      · simp only [hv, Bool.false_eq_true, if_false]
        exact ⟨length_mapDelete_le key c, keysNodup_mapDelete key c⟩
    | none =>
      exact ⟨length_mapDelete_le key c, keysNodup_mapDelete key c⟩
  · intro c k d now p hnd hlen hp hget
    have h50 : MAX_CACHE_SIZE ≤ c.length := le_of_eq hlen.symm
    cases c with
    | nil => simp [MAX_CACHE_SIZE] at hlen
    | cons q rest =>
      replace hp : q = p := by simpa using hp
      subst hp
      rw [saveToCache_full q rest k d now h50]
      have hmem : q.1 ∈ keysOf (q :: rest) := by simp [keysOf]
      have hdel := length_mapDelete_nodup_mem q.1 (q :: rest) hnd hmem
      have hknot : mapGet k (mapDelete q.1 (q :: rest)) = none :=
        mapGet_mapDelete_none k q.1 (q :: rest) hget
      have hpk : q.1 ≠ k := by
        intro hc
        have hsome : (mapGet k (q :: rest)).isSome := by
          rw [mapGet_isSome_iff_mem_keys]
          exact hc ▸ hmem
        rw [hget] at hsome
        simp at hsome
      constructor
      · rw [length_mapSet, hknot]
        simp only [Option.isSome_none, Bool.false_eq_true, if_false]
        omega
      · rw [mapGet_mapSet_other k q.1 _ _ hpk]
        exact mapGet_mapDelete_self q.1 (q :: rest)
  · intro c
    simp [clearJobCache, MAX_CACHE_SIZE]

/-- The concrete 50-entry cache used by the C7 witness: keys job_0 ..
job_49, oldest first. -/
def w7c (n : Nat) : Cache :=
  (List.range n).map (fun i => ("job_" ++ toString i, ⟨none, 0⟩))

/-- Witness for C7 at a concrete 50-entry cache plus a fresh key. -/
theorem cache_bound_invariant_witness :
    keysNodup (w7c 50) ∧ (w7c 50).length = MAX_CACHE_SIZE ∧
    (saveToCache (w7c 50) "job_new" none 0).length = MAX_CACHE_SIZE ∧
    mapGet "job_0" (saveToCache (w7c 50) "job_new" none 0) = none := by
  have h := (cache_bound_invariant.2.2.1 (w7c 50) "job_new" none 0
    ("job_0", ⟨none, 0⟩) (by decide) (by decide) (by decide) (by decide))
  exact ⟨by decide, by decide, h.1, h.2⟩

/-- Claim C9: saveToCache of an already-present key while the cache holds
exactly MAX_CACHE_SIZE entries still runs the capacity check: when the
overwritten key is not the oldest, the oldest-inserted entry is evicted
and the cache shrinks to MAX_CACHE_SIZE - 1 entries; when the overwritten
key is itself the oldest, the size stays at MAX_CACHE_SIZE. -/
theorem saveToCache_overwrite_at_capacity (c : Cache) (k : String)
    (d d' : Option CData) (now ts : Nat) (p : String × CacheEntry)
    (hnd : keysNodup c) (hlen : c.length = MAX_CACHE_SIZE)
    (hget : mapGet k c = some ⟨d', ts⟩) (hp : c.head? = some p) :
    (p.1 ≠ k →
      (saveToCache c k d now).length + 1 = MAX_CACHE_SIZE ∧
        mapGet p.1 (saveToCache c k d now) = none) ∧
    (p.1 = k → (saveToCache c k d now).length = MAX_CACHE_SIZE) := by
  have h50 : MAX_CACHE_SIZE ≤ c.length := le_of_eq hlen.symm
  cases c with
  | nil => simp [MAX_CACHE_SIZE] at hlen
  | cons q rest =>
    replace hp : q = p := by simpa using hp
    subst hp
    rw [saveToCache_full q rest k d now h50]
    have hmem : q.1 ∈ keysOf (q :: rest) := by simp [keysOf]
    have hdel := length_mapDelete_nodup_mem q.1 (q :: rest) hnd hmem
    constructor
    · intro hne
      have hsame : mapGet k (mapDelete q.1 (q :: rest))
          = mapGet k (q :: rest) :=
        mapGet_mapDelete_other q.1 k (q :: rest) (fun hc => hne hc.symm)
      constructor
      · rw [length_mapSet, hsame, hget]
        simp only [Option.isSome_some, if_true]
        omega
      · rw [mapGet_mapSet_other k q.1 _ _ hne]
        exact mapGet_mapDelete_self q.1 (q :: rest)
    · intro heq
      have hgone : mapGet k (mapDelete q.1 (q :: rest)) = none := by
        rw [heq]
        exact mapGet_mapDelete_self k (q :: rest)
      rw [length_mapSet, hgone]
      simp only [Option.isSome_none, Bool.false_eq_true, if_false]
      omega

/-- The concrete 50-entry cache used by the C9 witness: keys id0 .. id49,
oldest first. -/
def w9c (n : Nat) : Cache :=
  (List.range n).map (fun i => ("id" ++ toString i, ⟨none, 0⟩))

/-- Witness for C9: overwriting the newest key of a full 50-entry cache
shrinks it to 49 and evicts the oldest key. -/
theorem saveToCache_overwrite_at_capacity_witness :
    keysNodup (w9c 50) ∧ (w9c 50).length = MAX_CACHE_SIZE ∧
    mapGet "id49" (w9c 50) = some ⟨none, 0⟩ ∧
    (saveToCache (w9c 50) "id49" none 7).length + 1 = MAX_CACHE_SIZE ∧
    mapGet "id0" (saveToCache (w9c 50) "id49" none 7) = none := by
  have h := (saveToCache_overwrite_at_capacity (w9c 50) "id49" none none 7 0
    ("id0", ⟨none, 0⟩) (by decide) (by decide) (by decide) (by decide)).1
    (by decide)
  exact ⟨by decide, by decide, by decide, h.1, h.2⟩

/-! ### Retry-policy claims -/

theorem withRetryGo_ok (op : Nat → Except JsError α) (r a d : Nat) (v : α)
    (h : op a = .ok v) : withRetryGo op r a d = ⟨.ok v, a + 1, d⟩ := by
  unfold withRetryGo
  simp [h]

theorem withRetryGo_classifyErr (op : Nat → Except JsError α) (r a d : Nat)
    (e te : JsError) (h : op a = .error e)
    (hc : isRetryableE e = .error te) :
    withRetryGo op r a d = ⟨.error te, a + 1, d⟩ := by
  unfold withRetryGo
  simp [h, hc]

theorem withRetryGo_nonretryable (op : Nat → Except JsError α) (r a d : Nat)
    (e : JsError) (h : op a = .error e) (hc : isRetryableE e = .ok false) :
    withRetryGo op r a d = ⟨.error e, a + 1, d⟩ := by
  unfold withRetryGo
  cases r <;> simp [h, hc]

theorem withRetryGo_retry (op : Nat → Except JsError α) (r a d : Nat)
    (e : JsError) (h : op a = .error e) (hc : isRetryableE e = .ok true) :
    withRetryGo op (r + 1) a d = withRetryGo op r (a + 1) (d + 1) := by
  conv_lhs => unfold withRetryGo
  simp [h, hc]

theorem withRetryGo_exhausted (op : Nat → Except JsError α) (a d : Nat)
    (e : JsError) (h : op a = .error e) (hc : isRetryableE e = .ok true) :
    withRetryGo op 0 a d = ⟨.error e, a + 1, d⟩ := by
  unfold withRetryGo
  simp [h, hc]

theorem attempts_mk (res : Except JsError α) (n m : Nat) :
    (RetryRun.mk res n m).attempts = n := rfl

theorem delays_mk (res : Except JsError α) (n m : Nat) :
    (RetryRun.mk res n m).delays = m := rfl

theorem withRetryGo_attempts_le (op : Nat → Except JsError α) (r : Nat) :
    ∀ a d, (withRetryGo op r a d).attempts ≤ a + r + 1 := by
  induction r with
  | zero =>
    intro a d
    cases h : op a with
    | ok v => rw [withRetryGo_ok op 0 a d v h, attempts_mk] <;> omega
    | error e =>
      cases hc : isRetryableE e with
      | error te =>
        rw [withRetryGo_classifyErr op 0 a d e te h hc, attempts_mk] <;> omega
      | ok b =>
        cases b with
        | false =>
          rw [withRetryGo_nonretryable op 0 a d e h hc, attempts_mk] <;> omega
        | true =>
          rw [withRetryGo_exhausted op a d e h hc, attempts_mk] <;> omega
  | succ rp ih =>
    intro a d
    cases h : op a with
    | ok v => rw [withRetryGo_ok op (rp + 1) a d v h, attempts_mk] <;> omega
    | error e =>
      cases hc : isRetryableE e with
      | error te =>
        rw [withRetryGo_classifyErr op (rp + 1) a d e te h hc, attempts_mk]
          <;> omega
      | ok b =>
        cases b with
        | false =>
          rw [withRetryGo_nonretryable op (rp + 1) a d e h hc, attempts_mk]
            <;> omega
        | true =>
          rw [withRetryGo_retry op rp a d e h hc]
          have := ih (a + 1) (d + 1)
          omega

theorem withRetryGo_attempts_ge (op : Nat → Except JsError α) (r : Nat) :
    ∀ a d, a + 1 ≤ (withRetryGo op r a d).attempts := by
  induction r with
  | zero =>
    intro a d
    cases h : op a with
    | ok v => rw [withRetryGo_ok op 0 a d v h, attempts_mk] <;> omega
    | error e =>
      cases hc : isRetryableE e with
      | error te =>
        rw [withRetryGo_classifyErr op 0 a d e te h hc, attempts_mk] <;> omega
      | ok b =>
        cases b with
        | false =>
          rw [withRetryGo_nonretryable op 0 a d e h hc, attempts_mk] <;> omega
        | true =>
          rw [withRetryGo_exhausted op a d e h hc, attempts_mk] <;> omega
  | succ rp ih =>
    intro a d
    cases h : op a with
    | ok v => rw [withRetryGo_ok op (rp + 1) a d v h, attempts_mk] <;> omega
    | error e =>
      cases hc : isRetryableE e with
      | error te =>
        rw [withRetryGo_classifyErr op (rp + 1) a d e te h hc, attempts_mk]
          <;> omega
      | ok b =>
        cases b with
        | false =>
          rw [withRetryGo_nonretryable op (rp + 1) a d e h hc, attempts_mk]
            <;> omega
        | true =>
          rw [withRetryGo_retry op rp a d e h hc]
          have := ih (a + 1) (d + 1)
          omega

theorem withRetryGo_delays (op : Nat → Except JsError α) (r : Nat) :
    ∀ a d, (withRetryGo op r a d).delays
      = d + ((withRetryGo op r a d).attempts - (a + 1)) := by
  induction r with
  | zero =>
    intro a d
    cases h : op a with
    | ok v =>
      rw [withRetryGo_ok op 0 a d v h, attempts_mk, delays_mk] <;> omega
    | error e =>
      cases hc : isRetryableE e with
      | error te =>
        rw [withRetryGo_classifyErr op 0 a d e te h hc, attempts_mk,
          delays_mk] <;> omega
      | ok b =>
        cases b with
        | false =>
          rw [withRetryGo_nonretryable op 0 a d e h hc, attempts_mk,
            delays_mk] <;> omega
        | true =>
          rw [withRetryGo_exhausted op a d e h hc, attempts_mk, delays_mk]
            <;> omega
  | succ rp ih =>
    intro a d
    cases h : op a with
    | ok v =>
      rw [withRetryGo_ok op (rp + 1) a d v h, attempts_mk, delays_mk]
        <;> omega
    | error e =>
      cases hc : isRetryableE e with
      | error te =>
        rw [withRetryGo_classifyErr op (rp + 1) a d e te h hc, attempts_mk,
          delays_mk] <;> omega
      | ok b =>
        cases b with
        | false =>
          rw [withRetryGo_nonretryable op (rp + 1) a d e h hc, attempts_mk,
            delays_mk] <;> omega
        | true =>
          rw [withRetryGo_retry op rp a d e h hc]
          have hge := withRetryGo_attempts_ge op rp (a + 1) (d + 1)
          have := ih (a + 1) (d + 1)
          omega

theorem withRetryGo_mid (op : Nat → Except JsError α) (r : Nat) :
    ∀ a d k, a ≤ k → k + 1 < (withRetryGo op r a d).attempts →
      ∃ e, op k = .error e ∧ isRetryableE e = .ok true := by
  induction r with
  | zero =>
    intro a d k hk hlt
    exfalso
    have := withRetryGo_attempts_le op 0 a d
    omega
  | succ rp ih =>
    intro a d k hk hlt
    cases h : op a with
    | ok v =>
      rw [withRetryGo_ok op (rp + 1) a d v h, attempts_mk] at hlt
      omega
    | error e =>
      cases hc : isRetryableE e with
      | error te =>
        rw [withRetryGo_classifyErr op (rp + 1) a d e te h hc, attempts_mk]
          at hlt
        omega
      | ok b =>
        cases b with
        | false =>
          rw [withRetryGo_nonretryable op (rp + 1) a d e h hc, attempts_mk]
            at hlt
          omega
        | true =>
          rcases Nat.eq_or_lt_of_le hk with heq | hgt
          · exact ⟨e, heq ▸ h, hc⟩
          · rw [withRetryGo_retry op rp a d e h hc] at hlt
            exact ih (a + 1) (d + 1) k hgt hlt

/-- Claim C6: withRetry invokes the operation at most MAX_RETRIES + 1 = 3
times; a delay precedes exactly each re-invocation; a first-attempt
success returns immediately; a non-retryable first error propagates
unchanged with one attempt; every non-final attempt failed with a
retryable error; two "unavailable" failures followed by a success yield a
success on the 3rd attempt after exactly 2 delays; and three retryable
failures propagate the final error unchanged after 3 attempts and 2
delays. -/
theorem withRetry_spec (op : Nat → Except JsError α) :
    ((withRetry op).attempts ≤ MAX_RETRIES + 1) ∧
    ((withRetry op).delays = (withRetry op).attempts - 1) ∧
    (∀ v, op 0 = .ok v → withRetry op = ⟨.ok v, 1, 0⟩) ∧
    (∀ e, op 0 = .error e → isRetryableE e = .ok false →
      withRetry op = ⟨.error e, 1, 0⟩) ∧
    (∀ k, k + 1 < (withRetry op).attempts →
      ∃ e, op k = .error e ∧ isRetryableE e = .ok true) ∧
    (∀ e0 e1 (v : α), op 0 = .error e0 → e0.code = some "unavailable" →
      op 1 = .error e1 → e1.code = some "unavailable" → op 2 = .ok v →
      withRetry op = ⟨.ok v, 3, 2⟩) ∧
    (∀ e0 e1 e2, op 0 = .error e0 → isRetryableE e0 = .ok true →
      op 1 = .error e1 → isRetryableE e1 = .ok true →
      op 2 = .error e2 → isRetryableE e2 = .ok true →
      withRetry op = ⟨.error e2, 3, 2⟩) := by
  refine ⟨?_, ?_, ?_, ?_, ?_, ?_, ?_⟩
  · have := withRetryGo_attempts_le op MAX_RETRIES 0 0
    simpa [withRetry, MAX_RETRIES] using this
  · have := withRetryGo_delays op MAX_RETRIES 0 0
    simpa [withRetry] using this
  · intro v h
    exact withRetryGo_ok op MAX_RETRIES 0 0 v h
  · intro e h hc
    exact withRetryGo_nonretryable op MAX_RETRIES 0 0 e h hc
  · intro k hlt
    exact withRetryGo_mid op MAX_RETRIES 0 0 k (Nat.zero_le k) hlt
  · intro e0 e1 v h0 hc0 h1 hc1 h2
    have hr0 : isRetryableE e0 = .ok true := by simp [isRetryableE, hc0]
    have hr1 : isRetryableE e1 = .ok true := by simp [isRetryableE, hc1]
    show withRetryGo op 2 0 0 = ⟨.ok v, 3, 2⟩
    rw [show (2 : Nat) = 1 + 1 from rfl,
      withRetryGo_retry op 1 0 0 e0 h0 hr0,
      show (1 : Nat) = 0 + 1 from rfl,
      withRetryGo_retry op 0 (0 + 1) (0 + 1) e1 h1 hr1,
      withRetryGo_ok op 0 (0 + 1 + 1) (0 + 1 + 1) v h2]
  · intro e0 e1 e2 h0 hc0 h1 hc1 h2 hc2
    show withRetryGo op 2 0 0 = ⟨.error e2, 3, 2⟩
    rw [show (2 : Nat) = 1 + 1 from rfl,
      withRetryGo_retry op 1 0 0 e0 h0 hc0,
      show (1 : Nat) = 0 + 1 from rfl,
      withRetryGo_retry op 0 (0 + 1) (0 + 1) e1 h1 hc1,
      withRetryGo_exhausted op (0 + 1 + 1) (0 + 1 + 1) e2 h2 hc2]

/-- Witness for C6: an operation failing with "unavailable" twice and
then succeeding completes on the 3rd attempt after 2 delays. -/
theorem withRetry_spec_witness :
    withRetry (fun k =>
      if k < 2 then (.error ⟨some "unavailable", some "u"⟩ : Except JsError Nat)
      else .ok 7) = ⟨.ok 7, 3, 2⟩ :=
  (withRetry_spec (fun k =>
      if k < 2 then (.error ⟨some "unavailable", some "u"⟩ : Except JsError Nat)
      else .ok 7)).2.2.2.2.2.1
    ⟨some "unavailable", some "u"⟩ ⟨some "unavailable", some "u"⟩ 7
    (by decide) (by decide) (by decide) (by decide) (by decide)

/-- Claim C10: when the wrapped operation throws a value whose code is
neither "unavailable" nor "deadline-exceeded" and whose message is not a
string, evaluating error.message.includes("network") itself throws a
TypeError, which the caller receives in place of the original error (and
without any retry or delay). -/
theorem withRetry_nonstring_message (op : Nat → Except JsError α)
    (e : JsError) (h : op 0 = .error e) (h1 : e.code ≠ some "unavailable")
    (h2 : e.code ≠ some "deadline-exceeded") (h3 : e.message = none) :
    withRetry op = ⟨.error jsTypeError, 1, 0⟩ ∧ jsTypeError ≠ e := by
  have hc : isRetryableE e = .error jsTypeError := by
    unfold isRetryableE
    rw [h3]
    simp [h1, h2]
  refine ⟨withRetryGo_classifyErr op MAX_RETRIES 0 0 e jsTypeError h hc, ?_⟩
  intro hcon
  rw [← hcon] at h3
  simp [jsTypeError] at h3

/-- Witness for C10 at a concrete permission error with no message. -/
theorem withRetry_nonstring_message_witness :
    withRetry (fun _ => (.error ⟨some "permission-denied", none⟩ :
      Except JsError Nat)) = ⟨.error jsTypeError, 1, 0⟩ ∧
    jsTypeError ≠ ⟨some "permission-denied", none⟩ :=
  withRetry_nonstring_message
    (fun _ => (.error ⟨some "permission-denied", none⟩ : Except JsError Nat))
    ⟨some "permission-denied", none⟩ (by decide) (by decide) (by decide)
    (by decide)

/-! ### fetchAllJobs stale-fallback claim, fetchJobById cached-null claim -/

theorem withRetryGo_result_error_of_fail (op : Nat → Except JsError α)
    (h : ∀ k, ∃ e, op k = .error e) (r : Nat) :
    ∀ a d, ∃ e', (withRetryGo op r a d).result = .error e' := by
  induction r with
  | zero =>
    intro a d
    obtain ⟨e, he⟩ := h a
    cases hc : isRetryableE e with
    | error te =>
      exact ⟨te, by rw [withRetryGo_classifyErr op 0 a d e te he hc]⟩
    | ok b =>
      cases b with
      | false => exact ⟨e, by rw [withRetryGo_nonretryable op 0 a d e he hc]⟩
      | true => exact ⟨e, by rw [withRetryGo_exhausted op a d e he hc]⟩
  | succ rp ih =>
    intro a d
    obtain ⟨e, he⟩ := h a
    cases hc : isRetryableE e with
    | error te =>
      exact ⟨te, by rw [withRetryGo_classifyErr op (rp + 1) a d e te he hc]⟩
    | ok b =>
      cases b with
      | false =>
        exact ⟨e, by rw [withRetryGo_nonretryable op (rp + 1) a d e he hc]⟩
      | true =>
        obtain ⟨e', he'⟩ := ih (a + 1) (d + 1)
        exact ⟨e', by rw [withRetryGo_retry op rp a d e he hc]; exact he'⟩

theorem fetchAllJobsOp_error (store : Nat → Except JsError (List RawDoc))
    (c : Cache) (now k : Nat) (e : JsError) (h : store k = .error e) :
    fetchAllJobsOp store c now k = .error e := by
  unfold fetchAllJobsOp
  rw [h]
  rfl

/-- Claim C1, amended: with the remote full-collection query failing on
every attempt and useCache true, fetchAllJobs returns the aggregate cache
entry only when that entry is fresh at call start (truthy data via the
early cache hit, falsy data via the stale-fallback read); when the entry
is absent, and equally when the entry present at call start has already
expired (the initial getFromCache deletes it before the fallback can see
it), the call throws the user-facing unable-to-load-jobs error. -/
theorem fetchAllJobs_stale_fallback_amended
    (store : Nat → Except JsError (List RawDoc)) (c0 : Cache) (now : Nat)
    (hfail : ∀ k, ∃ e, store k = .error e) :
    (∀ e, mapGet "all_jobs_sorted" c0 = some e →
      isCacheValid e.timestamp now = true →
      (fetchAllJobs store true c0 now).result = .ok e.data) ∧
    (mapGet "all_jobs_sorted" c0 = none →
      (fetchAllJobs store true c0 now).result = .error fetchAllJobsErr) ∧
    (∀ e, mapGet "all_jobs_sorted" c0 = some e →
      isCacheValid e.timestamp now = false →
      (fetchAllJobs store true c0 now).result = .error fetchAllJobsErr) := by
  have hop : ∀ c1, ∃ e',
      (withRetry (fetchAllJobsOp store c1 now)).result = .error e' := by
    intro c1
    exact withRetryGo_result_error_of_fail (fetchAllJobsOp store c1 now)
      (fun k => by
        obtain ⟨e, he⟩ := hfail k
        exact ⟨e, fetchAllJobsOp_error store c1 now k e he⟩)
      MAX_RETRIES 0 0
  refine ⟨?_, ?_, ?_⟩
  · intro e hget hval
    obtain ⟨e', he'⟩ := hop c0
    cases hdata : e.data with
    | some d =>
      simp [fetchAllJobs, getFromCache, hget, hval, hdata]
    | none =>
      simp only [fetchAllJobs, getFromCache, hget, hval, if_true, hdata]
      rw [he']
  · intro hget
    obtain ⟨e', he'⟩ := hop (mapDelete "all_jobs_sorted" c0)
    simp only [fetchAllJobs, getFromCache, hget, if_true]
    rw [he']
    simp [mapGet_mapDelete_self]
  · intro e hget hval
    obtain ⟨e', he'⟩ := hop (mapDelete "all_jobs_sorted" c0)
    simp only [fetchAllJobs, getFromCache, hget, hval, if_true,
      Bool.false_eq_true, if_false]
    rw [he']
    simp [mapGet_mapDelete_self]

/-- Counterexample to claim C1 as stated: an aggregate cache entry that
is present but expired at call start is deleted by the initial cache
lookup, so a store failing every attempt makes fetchAllJobs(true) throw
the unable-to-load-jobs error instead of returning the stale list. -/
theorem fetchAllJobs_expired_stale_cex :
    (fetchAllJobs (fun _ => .error ⟨some "unavailable", some "u"⟩) true
      [("all_jobs_sorted", ⟨some (.jobs []), 0⟩)] CACHE_TIME).result
      = .error fetchAllJobsErr ∧
    ¬ (fetchAllJobs (fun _ => .error ⟨some "unavailable", some "u"⟩) true
      [("all_jobs_sorted", ⟨some (.jobs []), 0⟩)] CACHE_TIME).result
      = .ok (some (.jobs [])) := by
  constructor <;> decide

/-- Witness for the amended C1 at concrete fresh, absent and expired
cache states. -/
theorem fetchAllJobs_stale_fallback_amended_witness :
    (fetchAllJobs (fun _ => .error ⟨some "unavailable", some "net"⟩) true
      [("all_jobs_sorted", ⟨some (.jobs [⟨"j", .undefined, .undefined, []⟩]), 5⟩)]
      (5 + CACHE_TIME)).result = .error fetchAllJobsErr ∧
    (fetchAllJobs (fun _ => .error ⟨some "unavailable", some "net"⟩) true
      [("all_jobs_sorted", ⟨some (.jobs [⟨"j", .undefined, .undefined, []⟩]), 5⟩)]
      6).result = .ok (some (.jobs [⟨"j", .undefined, .undefined, []⟩])) ∧
    (fetchAllJobs (fun _ => .error ⟨some "unavailable", some "net"⟩) true
      [] 6).result = .error fetchAllJobsErr := by
  refine ⟨?_, ?_, ?_⟩
  · exact (fetchAllJobs_stale_fallback_amended _ _ _
      (fun k => ⟨⟨some "unavailable", some "net"⟩, rfl⟩)).2.2
      ⟨some (.jobs [⟨"j", .undefined, .undefined, []⟩]), 5⟩ (by decide) (by decide)
  · exact (fetchAllJobs_stale_fallback_amended _ _ _
      (fun k => ⟨⟨some "unavailable", some "net"⟩, rfl⟩)).1
      ⟨some (.jobs [⟨"j", .undefined, .undefined, []⟩]), 5⟩ (by decide) (by decide)
  · exact (fetchAllJobs_stale_fallback_amended _ _ _
      (fun k => ⟨⟨some "unavailable", some "net"⟩, rfl⟩)).2.1 (by decide)

/-- Claim C2, evaluated at the failing input: with a fresh cache entry
under job_j1 holding the explicit null marker, getFromCache returns null
(indistinguishable from a miss), and fetchJobById("j1", true) performs a
remote point lookup (1 attempt) instead of answering from the cache with
none. -/
theorem fetchJobById_cached_null_bug :
    isCacheValid 0 10 = true ∧
    (getFromCache [("job_j1", ⟨none, 0⟩)] "job_j1" 10).1 = none ∧
    (fetchJobById (fun _ => .ok none) (.str "j1") true
      [("job_j1", ⟨none, 0⟩)] 10).attempts = 1 := by
  refine ⟨by decide, by decide, by decide⟩

/-! ### postJob validation-failure claim -/

/-- Claim C3, amended: a jobData failing validateJobData makes postJob
return, with zero addDoc calls, a structured failure whose error field is
the validation message verbatim, and whose message field is that message
verbatim exactly when it contains "required" or "must be" (missing-field,
salary and type errors) — blank-field and date errors surface the generic
failed-to-post message instead. -/
theorem postJob_validation_failure_amended
    (addStore : Nat → Except JsError String) (d : JobFormData)
    (userId userName : JSVal) (msg : String)
    (hu : jsNonBlankStr userId ≠ none) (hn : jsNonBlankStr userName ≠ none)
    (hv : validateJobData d = .error msg) :
    postJob addStore (some d) userId userName = (.ok (postFailure msg), 0) ∧
    (postFailure msg).success = false ∧
    (postFailure msg).error = some msg ∧
    (postFailure msg).message =
      (if jsIncludes msg "required" || jsIncludes msg "must be" then msg
       else
        "Failed to post job. Please check your connection and try again.") := by
  obtain ⟨uid, hu'⟩ := Option.ne_none_iff_exists'.mp hu
  obtain ⟨uname, hn'⟩ := Option.ne_none_iff_exists'.mp hn
  refine ⟨?_, rfl, rfl, rfl⟩
  simp [postJob, hu', hn', hv]

/-- The concrete job form used by the C3 counterexample: hospital is
whitespace-only, every other field valid. -/
def c3Form : JobFormData :=
  { date := .str "2025-01-01", hospital := .str " ", location := .str "L"
  , position := .str "P", salary := .str "5", schedule := .str "S"
  , type := .str "permanent" }

/-- Counterexample to claim C3 as stated: a blank hospital field fails
validation with "hospital cannot be empty", postJob makes no remote call
and returns a structured failure, but its message field is the generic
failed-to-post text, not the validation message verbatim. -/
theorem postJob_verbatim_cex :
    validateJobData c3Form = .error "hospital cannot be empty" ∧
    (postJob (fun _ => .ok "id1") (some c3Form) (.str "u1")
      (.str "User")).2 = 0 ∧
    (postJob (fun _ => .ok "id1") (some c3Form) (.str "u1")
      (.str "User")).1 = .ok (postFailure "hospital cannot be empty") ∧
    ¬ (postFailure "hospital cannot be empty").message
      = "hospital cannot be empty" := by
  refine ⟨by decide, by decide, by decide, by decide⟩

/-- Witness for the amended C3 at a concrete non-positive salary (a
"must be" message, surfaced verbatim). -/
theorem postJob_validation_failure_amended_witness :
    postJob (fun _ => .ok "id2")
      (some { date := .str "2025-01-01", hospital := .str "H"
            , location := .str "L", position := .str "P"
            , salary := .str "-5", schedule := .str "S"
            , type := .str "permanent" })
      (.str "u") (.str "N")
      = (.ok (postFailure "Salary must be a positive number"), 0) ∧
    (postFailure "Salary must be a positive number").message
      = "Salary must be a positive number" :=
  ⟨(postJob_validation_failure_amended (fun _ => .ok "id2")
      { date := .str "2025-01-01", hospital := .str "H"
      , location := .str "L", position := .str "P"
      , salary := .str "-5", schedule := .str "S"
      , type := .str "permanent" }
      (.str "u") (.str "N") "Salary must be a positive number"
      (by decide) (by decide) (by decide)).1, by decide⟩

/-! ### chunkArray and dedupFirst lemmas -/

theorem chunkArrayGo_nil (f cs : Nat) :
    chunkArrayGo (α := α) f [] cs = [] := by
  cases f <;> cases cs <;> rfl

theorem chunkArrayGo_join (cs : Nat) :
    ∀ (f : Nat) (l : List α), l.length ≤ f →
      (chunkArrayGo f l (cs + 1)).join = l := by
  intro f
  induction f with
  | zero =>
    intro l hl
    have : l = [] := List.eq_nil_of_length_eq_zero (Nat.le_zero.mp hl)
    subst this
    simp [chunkArrayGo_nil]
  | succ fp ih =>
    intro l hl
    cases l with
    | nil => simp [chunkArrayGo_nil]
    | cons x xs =>
      have hdrop : ((x :: xs).drop (cs + 1)).length ≤ fp := by
        simp only [List.length_drop, List.length_cons]
        simp only [List.length_cons] at hl
        omega
      simp only [chunkArrayGo, List.join_cons, ih _ hdrop]
      exact List.take_append_drop (cs + 1) (x :: xs)

theorem chunkArray_join (l : List String) :
    (chunkArray l FIRESTORE_IN_LIMIT).join = l :=
  chunkArrayGo_join 9 l.length l le_rfl

theorem chunkArrayGo_sizes :
    ∀ (f : Nat) (l : List α), l.length ≤ f →
      (chunkArrayGo f l 10).map List.length
        = List.replicate (l.length / 10) 10
          ++ (if l.length % 10 = 0 then [] else [l.length % 10]) := by
  intro f
  induction f with
  | zero =>
    intro l hl
    have : l = [] := List.eq_nil_of_length_eq_zero (Nat.le_zero.mp hl)
    subst this
    simp [chunkArrayGo_nil]
  | succ fp ih =>
    intro l hl
    cases l with
    | nil => simp [chunkArrayGo_nil]
    | cons x xs =>
      have hlen : (x :: xs).length = xs.length + 1 := List.length_cons x xs
      by_cases hle : (x :: xs).length ≤ 10
      · have hdropnil : (x :: xs).drop 10 = [] :=
          List.drop_eq_nil_of_le hle
        have htake : ((x :: xs).take 10).length = (x :: xs).length := by
          simp only [List.length_take]
          omega
        show ((x :: xs).take 10).length ::
            (chunkArrayGo fp ((x :: xs).drop 10) 10).map List.length = _
        rw [hdropnil, chunkArrayGo_nil, htake]
        by_cases h10 : (x :: xs).length = 10
        · rw [h10]
          rfl
        · have hmod : (x :: xs).length % 10 = (x :: xs).length := by omega
          have hdiv : (x :: xs).length / 10 = 0 := by omega
          rw [hdiv, hmod]
          simp only [List.replicate_zero, List.nil_append]
          have : ¬ (x :: xs).length = 0 := by omega
          simp [this]
      · push_neg at hle
        have hdrop : ((x :: xs).drop 10).length ≤ fp := by
          simp only [List.length_drop]
          omega
        have hdroplen : ((x :: xs).drop 10).length = (x :: xs).length - 10 :=
          List.length_drop 10 (x :: xs)
        have htake : ((x :: xs).take 10).length = 10 := by
          simp only [List.length_take]
          omega
        show ((x :: xs).take 10).length ::
            (chunkArrayGo fp ((x :: xs).drop 10) 10).map List.length = _
        rw [htake, ih _ hdrop, hdroplen]
        have hdiv : (x :: xs).length / 10 = ((x :: xs).length - 10) / 10 + 1 :=
          by omega
        have hmod : (x :: xs).length % 10 = ((x :: xs).length - 10) % 10 :=
          by omega
        rw [hdiv, hmod, List.replicate_succ, List.cons_append]

theorem chunkArray_sizes (l : List String) :
    (chunkArray l FIRESTORE_IN_LIMIT).map List.length
      = List.replicate (l.length / 10) 10
        ++ (if l.length % 10 = 0 then [] else [l.length % 10]) :=
  chunkArrayGo_sizes l.length l le_rfl

theorem chunkArray_count (l : List String) :
    (chunkArray l FIRESTORE_IN_LIMIT).length = (l.length + 9) / 10 := by
  have h := congrArg List.length (chunkArray_sizes l)
  simp only [List.length_map, List.length_append, List.length_replicate] at h
  rw [h]
  by_cases hm : l.length % 10 = 0
  · simp only [hm, if_true, List.length_nil]
    omega
  · simp only [hm, if_false, List.length_cons, List.length_nil]
    omega

theorem dedupFirstGo_mem :
    ∀ (f : Nat) (l : List String) (x : String), l.length ≤ f →
      (x ∈ dedupFirstGo f l ↔ x ∈ l) := by
  intro f
  induction f with
  | zero =>
    intro l x hl
    have : l = [] := List.eq_nil_of_length_eq_zero (Nat.le_zero.mp hl)
    subst this
    simp [dedupFirstGo]
  | succ fp ih =>
    intro l x hl
    cases l with
    | nil => simp [dedupFirstGo]
    | cons y ys =>
      have hfil : (ys.filter (fun z => z != y)).length ≤ fp := by
        have h1 := List.length_filter_le (fun z => z != y) ys
        simp only [List.length_cons] at hl
        omega
      simp only [dedupFirstGo, List.mem_cons, ih _ x hfil,
        List.mem_filter, bne_iff_ne, ne_eq, decide_eq_true_eq]
      by_cases hxy : x = y
      · simp [hxy]
      · simp [hxy]

theorem dedupFirst_mem (l : List String) (x : String) :
    x ∈ dedupFirst l ↔ x ∈ l :=
  dedupFirstGo_mem l.length l x le_rfl

/-! ### fetchJobsByIds characterization -/

/-- The job a given database yields for an id: the processed snapshot
when the document exists with a well-formed payload, none otherwise. -/
def expectedJob (db : String → Option (Option JobBody)) (id : String) :
    Option Job :=
  match db id with
  | some (some b) =>
    some { id := id, createdAt := normalizeTs b.createdAt
         , updatedAt := normalizeTs b.updatedAt, fields := b.fields }
  | _ => none

/-- The JavaScript value fetchJobsByIds should hand back for an id served
from the remote database. -/
def expectedCData (db : String → Option (Option JobBody)) (id : String) :
    Option CData :=
  (expectedJob db id).map CData.job

theorem any_key_eq_isSome (k : String) (m : List (String × α)) :
    m.any (fun p => p.1 == k) = (mapGet k m).isSome := by
  induction m with
  | nil => simp [mapGet, List.lookup]
  | cons p rest ih =>
    simp only [List.any_cons, mapGet, List.lookup]
    by_cases h : p.1 = k
    · have h1 : (p.1 == k) = true := beq_iff_eq.mpr h
      have h2 : (k == p.1) = true := beq_iff_eq.mpr h.symm
      simp [h1, h2]
    · have h1 : (p.1 == k) = false := beq_eq_false_iff_ne.mpr h
      have h2 : (k == p.1) = false :=
        beq_eq_false_iff_ne.mpr (fun hc => h hc.symm)
      simp only [h1, h2, Bool.false_or]
      exact ih

theorem getFromCache_nil (key : String) (now : Nat) :
    getFromCache [] key now = (none, []) := rfl

theorem probeCache_nil (now : Nat) :
    ∀ (ids : List String) (acc : List (String × CData))
      (unc : List String),
      probeCache now ids acc unc [] = (acc, unc ++ ids, []) := by
  intro ids
  induction ids with
  | nil => intro acc unc; simp [probeCache]
  | cons x rest ih =>
    intro acc unc
    simp only [probeCache, getFromCache_nil]
    rw [ih acc (unc ++ [x])]
    simp

/-- The document list a membership query yields for an arbitrary id list
(before deduplication). -/
def queryDocsL (db : String → Option (Option JobBody))
    (idl : List String) : List RawDoc :=
  idl.filterMap fun id => (db id).map fun b => RawDoc.mk id b

theorem queryDocs_eq (db : String → Option (Option JobBody))
    (chunk : List String) :
    queryDocs db chunk = queryDocsL db (dedupFirst chunk) := rfl

theorem queryDocsL_cons_none (db : String → Option (Option JobBody))
    (x : String) (rest : List String) (h : db x = none) :
    queryDocsL db (x :: rest) = queryDocsL db rest := by
  simp [queryDocsL, List.filterMap_cons, h]

theorem queryDocsL_cons_some (db : String → Option (Option JobBody))
    (x : String) (rest : List String) (b : Option JobBody)
    (h : db x = some b) :
    queryDocsL db (x :: rest) = RawDoc.mk x b :: queryDocsL db rest := by
  simp [queryDocsL, List.filterMap_cons, h]

/-- The processed job of a snapshot with a well-formed payload. -/
def mkJobOf (x : String) (body : JobBody) : Job :=
  { id := x, createdAt := normalizeTs body.createdAt
  , updatedAt := normalizeTs body.updatedAt, fields := body.fields }

theorem expectedJob_none (db : String → Option (Option JobBody))
    (id : String) (h : db id = none) : expectedJob db id = none := by
  simp [expectedJob, h]

theorem expectedJob_malformed (db : String → Option (Option JobBody))
    (id : String) (h : db id = some none) : expectedJob db id = none := by
  simp [expectedJob, h]

theorem expectedJob_some (db : String → Option (Option JobBody))
    (id : String) (body : JobBody) (h : db id = some (some body)) :
    expectedJob db id = some (mkJobOf id body) := by
  simp [expectedJob, mkJobOf, h]

theorem foldDocs_lookup (db : String → Option (Option JobBody))
    (now : Nat) :
    ∀ (idl : List String) (m : List (String × Option Job)) (c : Cache)
      (id : String),
      mapGet id ((queryDocsL db idl).foldl (chunkStep now) (m, c)).1
        = if id ∈ idl ∧ (expectedJob db id).isSome then
            some (expectedJob db id)
          else mapGet id m := by
  intro idl
  induction idl with
  | nil =>
    intro m c id
    simp [queryDocsL]
  | cons x rest ih =>
    intro m c id
    cases hdb : db x with
    | none =>
      rw [queryDocsL_cons_none db x rest hdb, ih m c id]
      by_cases hid : id = x
      · subst hid
        rw [expectedJob_none db id hdb]
        simp
      · simp [List.mem_cons, hid]
    | some b =>
      cases b with
      | none =>
        rw [queryDocsL_cons_some db x rest none hdb]
        simp only [List.foldl_cons]
        rw [show chunkStep now (m, c) (RawDoc.mk x none) = (m, c) from rfl]
        rw [ih m c id]
        by_cases hid : id = x
        · subst hid
          rw [expectedJob_malformed db id hdb]
          simp
        · simp [List.mem_cons, hid]
      | some body =>
        rw [queryDocsL_cons_some db x rest (some body) hdb]
        simp only [List.foldl_cons]
        rw [show chunkStep now (m, c) (RawDoc.mk x (some body))
            = (mapSet x (some (mkJobOf x body)) m,
               saveToCache c ("job_" ++ x)
                 (some (.job (mkJobOf x body))) now) from rfl]
        rw [ih _ _ id]
        by_cases hid : id = x
        · subst hid
          rw [expectedJob_some db id body hdb]
          by_cases hmem : id ∈ rest
          · simp [hmem]
          · simp only [hmem, false_and, if_false, Option.isSome_some,
              and_true, List.mem_cons, true_or, if_true]
            rw [mapGet_mapSet_self]
        · have hother : mapGet id (mapSet x (some (mkJobOf x body)) m)
              = mapGet id m := mapGet_mapSet_other x id _ m hid
          by_cases hmem : id ∈ rest
          · simp [hmem, hother]
          · simp [List.mem_cons, hid, hmem, hother]

theorem runChunk_noFail (db : String → Option (Option JobBody))
    (now : Nat) (st : ChunkState) (idx : Nat) (chunk : List String) :
    runChunk db (fun _ _ => none) now st idx chunk
      = ⟨((queryDocs db chunk).foldl (chunkStep now)
            (st.fetched, st.cache)).1,
         ((queryDocs db chunk).foldl (chunkStep now)
            (st.fetched, st.cache)).2,
         st.queries + 1, st.firstErr⟩ := by
  have h := withRetryGo_ok (fun attempt =>
    match (fun (_ _ : Nat) => (none : Option JsError)) idx attempt with
    | some e => Except.error e
    | none => Except.ok (queryDocs db chunk)) MAX_RETRIES 0 0
    (queryDocs db chunk) rfl
  unfold runChunk withRetry
  rw [h]

theorem chunksFold_noFail (db : String → Option (Option JobBody))
    (now : Nat) :
    ∀ (chunks : List (List String)) (n : Nat) (st : ChunkState),
      ((List.enumFrom n chunks).foldl
        (fun st p => runChunk db (fun _ _ => none) now st p.1 p.2)
        st).firstErr = st.firstErr ∧
      ((List.enumFrom n chunks).foldl
        (fun st p => runChunk db (fun _ _ => none) now st p.1 p.2)
        st).queries = st.queries + chunks.length ∧
      ∀ id, mapGet id ((List.enumFrom n chunks).foldl
          (fun st p => runChunk db (fun _ _ => none) now st p.1 p.2)
          st).fetched
        = if id ∈ chunks.join ∧ (expectedJob db id).isSome then
            some (expectedJob db id)
          else mapGet id st.fetched := by
  intro chunks
  induction chunks with
  | nil =>
    intro n st
    simp [List.enumFrom]
  | cons ch rest ih =>
    intro n st
    simp only [List.enumFrom, List.foldl_cons]
    rw [runChunk_noFail db now st n ch]
    obtain ⟨ihe, ihq, ihl⟩ := ih (n + 1)
      ⟨((queryDocs db ch).foldl (chunkStep now) (st.fetched, st.cache)).1,
       ((queryDocs db ch).foldl (chunkStep now) (st.fetched, st.cache)).2,
       st.queries + 1, st.firstErr⟩
    refine ⟨by rw [ihe], by rw [ihq]; simp [List.length_cons]; omega, ?_⟩
    intro id
    rw [ihl id]
    have hdocs : mapGet id ((queryDocs db ch).foldl (chunkStep now)
        (st.fetched, st.cache)).1
        = if id ∈ ch ∧ (expectedJob db id).isSome then
            some (expectedJob db id)
          else mapGet id st.fetched := by
      rw [queryDocs_eq, foldDocs_lookup db now (dedupFirst ch)
        st.fetched st.cache id]
      by_cases hmem : id ∈ ch
      · simp [(dedupFirst_mem ch id).mpr hmem, hmem]
      · have : ¬ id ∈ dedupFirst ch := fun hc =>
          hmem ((dedupFirst_mem ch id).mp hc)
        simp [this, hmem]
    show _ = if id ∈ (ch :: rest).join ∧ _ then _ else _
    simp only [List.join_cons, List.mem_append]
    by_cases hsm : (expectedJob db id).isSome = true
    · by_cases hr : id ∈ rest.join
      · simp [hr, hsm]
      · by_cases hc : id ∈ ch
        · simp [hr, hc, hsm, hdocs]
        · simp [hr, hc, hsm, hdocs]
    · simp only [hsm, and_false, if_false]
      rw [hdocs]
      simp [hsm]

theorem nf_mono (useCache : Bool) (now : Nat) :
    ∀ (todo : List String) (m : List (String × Option Job)) (c : Cache)
      (id : String), (mapGet id m).isSome = true →
      (mapGet id (todo.foldl (nfStep useCache now) (m, c)).1).isSome
        = true := by
  intro todo
  induction todo with
  | nil => intro m c id h; exact h
  | cons x rest ih =>
    intro m c id h
    simp only [List.foldl_cons]
    by_cases hany : m.any (fun p => p.1 == x) = true
    · rw [show nfStep useCache now (m, c) x = (m, c) by
        simp [nfStep, hany]]
      exact ih m c id h
    · rw [show nfStep useCache now (m, c) x
          = (mapSet x none m,
             if useCache then saveToCache c ("job_" ++ x) none now
             else c) by simp [nfStep, hany]]
      apply ih
      by_cases hx : id = x
      · subst hx
        rw [mapGet_mapSet_self]
        rfl
      · rw [mapGet_mapSet_other x id none m hx]
        exact h

theorem nf_value (db : String → Option (Option JobBody)) (useCache : Bool)
    (now : Nat) :
    ∀ (todo : List String) (m : List (String × Option Job)) (c : Cache),
      (∀ id v, mapGet id m = some v → v = expectedJob db id) →
      (∀ id, id ∈ todo → (expectedJob db id).isSome = true →
        (mapGet id m).isSome = true) →
      (∀ id v, mapGet id (todo.foldl (nfStep useCache now) (m, c)).1
          = some v → v = expectedJob db id) ∧
      (∀ id, id ∈ todo →
        (mapGet id (todo.foldl (nfStep useCache now) (m, c)).1).isSome
          = true) := by
  intro todo
  induction todo with
  | nil =>
    intro m c hval hcov
    exact ⟨hval, fun id h => absurd h (List.not_mem_nil id)⟩
  | cons x rest ih =>
    intro m c hval hcov
    simp only [List.foldl_cons]
    by_cases hany : m.any (fun p => p.1 == x) = true
    · rw [show nfStep useCache now (m, c) x = (m, c) by
        simp [nfStep, hany]]
      have hres := ih m c hval
        (fun id hid hsm => hcov id (List.mem_cons_of_mem x hid) hsm)
      refine ⟨hres.1, ?_⟩
      intro id hid
      rcases List.mem_cons.mp hid with hx | hr
      · subst hx
        apply nf_mono
        rw [← any_key_eq_isSome]
        exact hany
      · exact hres.2 id hr
    · have hnone : mapGet x m = none := by
        rw [any_key_eq_isSome] at hany
        exact Option.not_isSome_iff_eq_none.mp (by simpa using hany)
      have hexpx : expectedJob db x = none := by
        by_contra hc
        have hsm : (expectedJob db x).isSome = true :=
          Option.ne_none_iff_isSome.mp hc
        have := hcov x (List.mem_cons_self x rest) hsm
        rw [hnone] at this
        simp at this
      rw [show nfStep useCache now (m, c) x
          = (mapSet x none m,
             if useCache then saveToCache c ("job_" ++ x) none now
             else c) by simp [nfStep, hany]]
      have hval1 : ∀ id v, mapGet id (mapSet x none m) = some v →
          v = expectedJob db id := by
        intro id v hv
        by_cases hx : id = x
        · subst hx
          rw [mapGet_mapSet_self] at hv
          rw [hexpx]
          exact (Option.some.inj hv).symm
        · rw [mapGet_mapSet_other x id none m hx] at hv
          exact hval id v hv
      have hcov1 : ∀ id, id ∈ rest → (expectedJob db id).isSome = true →
          (mapGet id (mapSet x none m)).isSome = true := by
        intro id hid hsm
        by_cases hx : id = x
        · subst hx
          rw [hexpx] at hsm
          simp at hsm
        · rw [mapGet_mapSet_other x id none m hx]
          exact hcov id (List.mem_cons_of_mem x hid) hsm
      have hres := ih (mapSet x none m)
        (if useCache then saveToCache c ("job_" ++ x) none now else c)
        hval1 hcov1
      refine ⟨hres.1, ?_⟩
      intro id hid
      rcases List.mem_cons.mp hid with hx | hr
      · subst hx
        apply nf_mono
        rw [mapGet_mapSet_self]
        rfl
      · exact hres.2 id hr

theorem nf_final (db : String → Option (Option JobBody)) (useCache : Bool)
    (now : Nat) (todo : List String) (m : List (String × Option Job))
    (c : Cache)
    (hval : ∀ id v, mapGet id m = some v → v = expectedJob db id)
    (hcov : ∀ id, id ∈ todo → (expectedJob db id).isSome = true →
      (mapGet id m).isSome = true) :
    ∀ id, id ∈ todo →
      mapGet id (todo.foldl (nfStep useCache now) (m, c)).1
        = some (expectedJob db id) := by
  intro id hid
  obtain ⟨hv, hc⟩ := nf_value db useCache now todo m c hval hcov
  have hsome := hc id hid
  obtain ⟨v, hvv⟩ := Option.isSome_iff_exists.mp hsome
  rw [hvv]
  rw [hv id v hvv]

theorem lookup_eq_mapGet (id : String) (m : List (String × α)) :
    m.lookup id = mapGet id m := rfl

theorem fetchJobsByIds_cleanRun (db : String → Option (Option JobBody))
    (jobIds : List JSVal) (useCache : Bool) (now : Nat) :
    (fetchJobsByIds db (fun _ _ => none) jobIds useCache [] now).result
      = .ok ((validIds jobIds).map (expectedCData db)) ∧
    (fetchJobsByIds db (fun _ _ => none) jobIds useCache [] now).queries
      = (chunkArray (validIds jobIds) FIRESTORE_IN_LIMIT).length := by
  by_cases h0 : jobIds = []
  · subst h0
    exact ⟨rfl, rfl⟩
  · by_cases h1 : validIds jobIds = []
    · constructor
      · simp [fetchJobsByIds, h0, h1]
      · simp [fetchJobsByIds, h0, h1, chunkArray, chunkArrayGo_nil]
    · have hprobe : (if useCache then probeCache now (validIds jobIds) [] [] []
          else ([], validIds jobIds, ([] : Cache)))
          = ([], validIds jobIds, ([] : Cache)) := by
        cases useCache
        · rfl
        · rw [if_pos rfl, probeCache_nil]
          simp
      obtain ⟨hfe0, hfq0, hfl0⟩ := chunksFold_noFail db now
        (chunkArray (validIds jobIds) FIRESTORE_IN_LIMIT) 0 ⟨[], [], 0, none⟩
      have hfe : ((chunkArray (validIds jobIds) FIRESTORE_IN_LIMIT).enum.foldl
          (fun st p => runChunk db (fun _ _ => none) now st p.1 p.2)
          ⟨[], [], 0, none⟩).firstErr = none := hfe0
      have hfq : ((chunkArray (validIds jobIds) FIRESTORE_IN_LIMIT).enum.foldl
          (fun st p => runChunk db (fun _ _ => none) now st p.1 p.2)
          ⟨[], [], 0, none⟩).queries
          = (chunkArray (validIds jobIds) FIRESTORE_IN_LIMIT).length := by
        have := hfq0
        simpa using this
      have hfl : ∀ id, mapGet id
          ((chunkArray (validIds jobIds) FIRESTORE_IN_LIMIT).enum.foldl
            (fun st p => runChunk db (fun _ _ => none) now st p.1 p.2)
            ⟨[], [], 0, none⟩).fetched
          = if id ∈ (chunkArray (validIds jobIds) FIRESTORE_IN_LIMIT).join
              ∧ (expectedJob db id).isSome then
              some (expectedJob db id)
            else none := hfl0
      have hjoin : (chunkArray (validIds jobIds) FIRESTORE_IN_LIMIT).join
          = validIds jobIds := chunkArray_join (validIds jobIds)
      have hval : ∀ id v, mapGet id
          ((chunkArray (validIds jobIds) FIRESTORE_IN_LIMIT).enum.foldl
            (fun st p => runChunk db (fun _ _ => none) now st p.1 p.2)
            ⟨[], [], 0, none⟩).fetched = some v →
          v = expectedJob db id := by
        intro id v hv
        rw [hfl id, hjoin] at hv
        by_cases hcond : id ∈ validIds jobIds ∧ (expectedJob db id).isSome
        · rw [if_pos hcond] at hv
          exact (Option.some.inj hv).symm
        · rw [if_neg hcond] at hv
          simp at hv
      have hcov : ∀ id, id ∈ validIds jobIds →
          (expectedJob db id).isSome = true →
          (mapGet id
            ((chunkArray (validIds jobIds) FIRESTORE_IN_LIMIT).enum.foldl
              (fun st p => runChunk db (fun _ _ => none) now st p.1 p.2)
              ⟨[], [], 0, none⟩).fetched).isSome = true := by
        intro id hid hsm
        rw [hfl id, hjoin, if_pos ⟨hid, hsm⟩]
        rfl
      have hfinal := nf_final db useCache now (validIds jobIds)
        ((chunkArray (validIds jobIds) FIRESTORE_IN_LIMIT).enum.foldl
          (fun st p => runChunk db (fun _ _ => none) now st p.1 p.2)
          ⟨[], [], 0, none⟩).fetched
        ((chunkArray (validIds jobIds) FIRESTORE_IN_LIMIT).enum.foldl
          (fun st p => runChunk db (fun _ _ => none) now st p.1 p.2)
          ⟨[], [], 0, none⟩).cache
        hval hcov
      constructor
      · simp only [fetchJobsByIds, if_neg h0, if_neg h1, hprobe]
        rw [hfe]
        simp only []
        congr 1
        apply List.map_congr_left
        intro id hid
        simp only [List.lookup_nil, lookup_eq_mapGet]
        rw [hfinal id hid]
        rfl
      · simp only [fetchJobsByIds, if_neg h0, if_neg h1, hprobe]
        rw [hfe]
        simp only []
        rw [hfq]

theorem validIds_nil : validIds [] = [] := rfl

theorem fetchJobsByIds_ok_length (db : String → Option (Option JobBody))
    (fail : Nat → Nat → Option JsError) (jobIds : List JSVal)
    (useCache : Bool) (c0 : Cache) (now : Nat) (l : List (Option CData))
    (h : (fetchJobsByIds db fail jobIds useCache c0 now).result = .ok l) :
    l.length = (validIds jobIds).length := by
  simp only [fetchJobsByIds] at h
  iterate 8 (all_goals (try split at h))
  all_goals
    first
    | (obtain rfl := (Except.ok.inj h).symm; simp_all [validIds_nil])
    | exact absurd h (by simp)

theorem fetchJobsByIds_empty (db : String → Option (Option JobBody))
    (fail : Nat → Nat → Option JsError) (jobIds : List JSVal)
    (useCache : Bool) (c0 : Cache) (now : Nat)
    (h1 : validIds jobIds = []) :
    (fetchJobsByIds db fail jobIds useCache c0 now).result = .ok [] := by
  by_cases h0 : jobIds = []
  · subst h0
    rfl
  · simp [fetchJobsByIds, h0, h1]

/-- Claim C4: every list returned by fetchJobsByIds has exactly one
element per valid (trimmed, non-blank string) id, duplicates counted;
an empty or all-invalid input returns the empty list; and on a clean run
(no transient failures, empty cache) the returned list is exactly the
valid ids in caller order, each mapped to its processed document or to
null when the id is not found or its payload malformed. -/
theorem fetchJobsByIds_shape_order :
    (∀ (db : String → Option (Option JobBody))
      (fail : Nat → Nat → Option JsError) (jobIds : List JSVal)
      (useCache : Bool) (c0 : Cache) (now : Nat) (l : List (Option CData)),
      (fetchJobsByIds db fail jobIds useCache c0 now).result = .ok l →
      l.length = (validIds jobIds).length) ∧
    (∀ (db : String → Option (Option JobBody))
      (fail : Nat → Nat → Option JsError) (jobIds : List JSVal)
      (useCache : Bool) (c0 : Cache) (now : Nat),
      validIds jobIds = [] →
      (fetchJobsByIds db fail jobIds useCache c0 now).result = .ok []) ∧
    (∀ (db : String → Option (Option JobBody)) (jobIds : List JSVal)
      (useCache : Bool) (now : Nat),
      (fetchJobsByIds db (fun _ _ => none) jobIds useCache [] now).result
        = .ok ((validIds jobIds).map (expectedCData db))) :=
  ⟨fetchJobsByIds_ok_length, fetchJobsByIds_empty,
   fun db jobIds useCache now =>
     (fetchJobsByIds_cleanRun db jobIds useCache now).1⟩

/-- The database of the C4 witness: a1 and a2 exist, a2 with a malformed
payload; everything else is absent. -/
def w4db : String → Option (Option JobBody) := fun id =>
  if id = "a1" then some (some ⟨.fsTime 1, .absent, []⟩)
  else if id = "a2" then some none
  else none

/-- Witness for C4: a 6-element input with one duplicate, one blank and
one non-string id yields a 4-element result in caller order with null at
the not-found and malformed positions. -/
theorem fetchJobsByIds_shape_order_witness :
    (fetchJobsByIds w4db (fun _ _ => none)
        [.str "a1", .str "a3", .str " a2 ", .str "", .num (some 3),
         .str "a1"] true [] 5).result
      = .ok [some (.job ⟨"a1", .isoOfMs 1, .undefined, []⟩), none, none,
             some (.job ⟨"a1", .isoOfMs 1, .undefined, []⟩)] ∧
    ([some (.job ⟨"a1", .isoOfMs 1, .undefined, []⟩), none, none,
      some (.job ⟨"a1", .isoOfMs 1, .undefined, []⟩)] :
        List (Option CData)).length
      = (validIds [.str "a1", .str "a3", .str " a2 ", .str "",
          .num (some 3), .str "a1"]).length ∧
    (fetchJobsByIds w4db (fun _ _ => none) [.str "", .str "   "] true
        [] 5).result = .ok [] := by
  refine ⟨?_, ?_, ?_⟩
  · have h := fetchJobsByIds_shape_order.2.2 w4db
      [.str "a1", .str "a3", .str " a2 ", .str "", .num (some 3),
       .str "a1"] true 5
    rw [h]
    decide
  · exact fetchJobsByIds_shape_order.1 w4db (fun _ _ => none)
      [.str "a1", .str "a3", .str " a2 ", .str "", .num (some 3),
       .str "a1"] true [] 5
      [some (.job ⟨"a1", .isoOfMs 1, .undefined, []⟩), none, none,
       some (.job ⟨"a1", .isoOfMs 1, .undefined, []⟩)] (by decide)
  · exact fetchJobsByIds_shape_order.2.1 w4db (fun _ _ => none)
      [.str "", .str "   "] true [] 5 (by decide)

/-- Claim C5: chunkArray partitions the uncached ids into consecutive
chunks whose concatenation is the input, every chunk of size at most
FIRESTORE_IN_LIMIT = 10 and every chunk except possibly the last of size
exactly 10 (the sizes are replicate (n / 10) 10 plus a final n % 10),
giving ceiling(n / 10) chunks; on a clean run over an empty cache,
fetchJobsByIds issues exactly one membership query per chunk, i.e.
ceiling(n / 10) queries for n valid uncached ids — 3 queries of sizes
10, 10 and 5 for 25 ids. -/
theorem fetchJobsByIds_chunking :
    (∀ l : List String, (chunkArray l FIRESTORE_IN_LIMIT).join = l) ∧
    (∀ l : List String, (chunkArray l FIRESTORE_IN_LIMIT).map List.length
      = List.replicate (l.length / 10) 10
        ++ (if l.length % 10 = 0 then [] else [l.length % 10])) ∧
    (∀ l : List String,
      (chunkArray l FIRESTORE_IN_LIMIT).length = (l.length + 9) / 10) ∧
    (∀ (db : String → Option (Option JobBody)) (jobIds : List JSVal)
      (useCache : Bool) (now : Nat),
      (fetchJobsByIds db (fun _ _ => none) jobIds useCache [] now).queries
        = (chunkArray (validIds jobIds) FIRESTORE_IN_LIMIT).length) :=
  ⟨chunkArray_join, chunkArray_sizes, chunkArray_count,
   fun db jobIds useCache now =>
     (fetchJobsByIds_cleanRun db jobIds useCache now).2⟩

end OnexTID
